import Mathlib

/-!
Verification development for the ottrec-website core (index, exporter, cache).

The Go sources are shallowly embedded:
  * machine strings are lists of byte values (`List Nat`);
  * `time.Time` values in the fixed America/Toronto zone are wall-clock tuples
    (`GoTime`); the values produced by the embedded code are midnights and
    end-of-day instants, which never fall inside a DST transition window in
    that zone, so the lexicographic wall-clock order coincides with instant
    order, and the zero `time.Time` (January 1, year 1, UTC) is modelled as
    `Option.none` (it is strictly before every wall time with year ≥ 1);
  * the third-party kelindar/bitmap dense bit set is modelled by its
    documented contract as the ascending list of its set bit positions
    (`bmOfPred`, `bmNext`, `bmPrev`, `bmRangeBetween`, `bmAnd`);
  * fallible navigation (Go panics on bad derefs) returns `Option`.
-/

set_option linter.unusedVariables false

/-! ## Bitmap model (kelindar/bitmap via the wrapper in the index sources) -/

/-- Bitmap with bit `q` set iff `q < len` and `f q`; contents listed ascending. -/
def bmOfPred (len : Nat) (f : Nat → Bool) : List Nat :=
  (List.range len).filter f

/-- `Next`: least set index `≥ i` (the Go version returns a not-present flag,
modelled as `none`). -/
def bmNext (b : List Nat) (i : Nat) : Option Nat :=
  (b.filter (fun j => decide (i ≤ j))).head?

/-- `Prev`: greatest set index `≤ i`. -/
def bmPrev (b : List Nat) (i : Nat) : Option Nat :=
  (b.filter (fun j => decide (j ≤ i))).getLast?

/-- `RangeBetween`: iteration restricted to `lo ≤ v < hi`. -/
def bmRangeBetween (b : List Nat) (lo hi : Nat) : List Nat :=
  b.filter (fun j => decide (lo ≤ j) && decide (j < hi))

/-- `And` (intersection, keeping the receiver's ascending order). -/
def bmAnd (b c : List Nat) : List Nat :=
  b.filter (fun j => c.contains j)

/-! ## Entity kinds and the object array -/

/-- The six entity kinds of the schedule tree. -/
inductive Kind
  | data
  | facility
  | group
  | schedule
  | activity
  | time
deriving DecidableEq, Repr

/-- Position of the kind in the hierarchy (Data at the top). -/
def Kind.rank : Kind → Nat
  | .data => 0
  | .facility => 1
  | .group => 2
  | .schedule => 3
  | .activity => 4
  | .time => 5

/-! ## Wall-clock times in the canonical zone (`GoTime`)

`timeDate` mirrors `time.Date`'s y/m/d normalization (proleptic Gregorian,
via the standard days-from-civil / civil-from-days conversions). -/

structure GoTime where
  year : Int
  month : Int
  day : Int
  nano : Int
deriving DecidableEq, Repr

def daysFromCivil (y m d : Int) : Int :=
  let y := if m ≤ 2 then y - 1 else y
  let era := Int.fdiv y 400
  let yoe := y - era * 400
  let mp := if m > 2 then m - 3 else m + 9
  let doy := Int.fdiv (153 * mp + 2) 5 + d - 1
  let doe := yoe * 365 + Int.fdiv yoe 4 - Int.fdiv yoe 100 + doy
  era * 146097 + doe - 719468

def civilFromDays (z0 : Int) : Int × Int × Int :=
  let z := z0 + 719468
  let era := Int.fdiv z 146097
  let doe := z - era * 146097
  let yoe := Int.fdiv (doe - Int.fdiv doe 1460 + Int.fdiv doe 36524 - Int.fdiv doe 146096) 365
  let y := yoe + era * 400
  let doy := doe - (365 * yoe + Int.fdiv yoe 4 - Int.fdiv yoe 100)
  let mp := Int.fdiv (5 * doy + 2) 153
  let d := doy - Int.fdiv (153 * mp + 2) 5 + 1
  let m := mp + (if mp < 10 then 3 else -9)
  (y + (if m ≤ 2 then 1 else 0), m, d)

/-- `time.Date(y, m, d, 0, 0, 0, 0, TZ)`: normalize the month, then resolve
the (possibly out-of-range) day through absolute days. -/
def timeDate (y m d : Int) : GoTime :=
  let m0 := m - 1
  let y1 := y + Int.fdiv m0 12
  let m1 := Int.emod m0 12 + 1
  let z := daysFromCivil y1 m1 1 + (d - 1)
  let c := civilFromDays z
  ⟨c.1, c.2.1, c.2.2, 0⟩

/-- `time.Time.After` on two non-zero wall times (instant order; see header
note on DST). -/
def goAfterT (a b : GoTime) : Bool :=
  if a.year != b.year then decide (b.year < a.year)
  else if a.month != b.month then decide (b.month < a.month)
  else if a.day != b.day then decide (b.day < a.day)
  else decide (b.nano < a.nano)

/-- `After` where `none` is the zero `time.Time` (before every year-≥-1 wall
time; all times produced here have year ≥ 1). -/
def goAfter : Option GoTime → Option GoTime → Bool
  | none, _ => false
  | some _, none => true
  | some a, some b => goAfterT a b

/-- `Add(-time.Nanosecond)` for the values used here (start-of-day or later). -/
def subOneNano (t : GoTime) : GoTime :=
  if 0 < t.nano then { t with nano := t.nano - 1 }
  else
    let c := civilFromDays (daysFromCivil t.year t.month t.day - 1)
    ⟨c.1, c.2.1, c.2.2, 86399999999999⟩

/-- The repository's `daysInMonth`: `time.Date(year, month+1, 0, …).Day()`. -/
def daysInMonth (y m : Int) : Int :=
  (timeDate y (m + 1) 0).day

/-! ## Parsed partial dates (schema.Date / schema.DateRange views) -/

/-- A parsed partial date: `Year()`, `Month()`, `Day()` each with an ok flag. -/
structure PD where
  year : Option Int
  month : Option Int
  day : Option Int
deriving DecidableEq, Repr

/-- Modelled from the spec: `schema.Date.IsValid` lives in the external schema
module; the spec only says parsed dates have optional components, so validity
is modelled as: a present month is in 1..12 and a present day is in 1..31. -/
def pdIsValid (x : PD) : Bool :=
  (match x.month with
   | some m => decide (1 ≤ m) && decide (m ≤ 12)
   | none => true) &&
  (match x.day with
   | some d => decide (1 ≤ d) && decide (d ≤ 31)
   | none => true)

/-- `schema.DateRange` as seen through `GetDateRange`: each side is zero
(absent, `none`) or a parsed partial date. -/
structure PRange where
  fromSide : Option PD
  toSide : Option PD
deriving DecidableEq, Repr

/-! ## Index payloads (the `x…` structs) and snapshot tree

Only the fields read by the embedded operations are retained; the remaining
fields are interned strings and floats that none of the verified operations
inspect. -/

structure XFacility where
  sourceDate : Option GoTime
deriving DecidableEq, Repr

structure XGroup where
  /-- Modelled from the spec: the group-level explicit "no reservation" flag
  read by `ScheduleGroupRef.GetNoResv` (the getter's backing field is not in
  the provided sources). -/
  noResv : Bool
  /-- Reservation links (`GetReservationLinks`); only emptiness is consumed. -/
  links : List Unit
deriving DecidableEq, Repr

structure XSchedule where
  dateRange : PRange
deriving DecidableEq, Repr

structure XActivity where
  resv : Bool
  hasResv : Bool
deriving DecidableEq, Repr

structure XTime where
  scheduleDay : Nat
deriving DecidableEq, Repr

/-- One entry of the flat object array `obj[]`. -/
inductive Obj
  | data
  | facility (x : XFacility)
  | group (x : XGroup)
  | schedule (x : XSchedule)
  | activity (x : XActivity)
  | time (x : XTime)
deriving DecidableEq, Repr

def Obj.kind : Obj → Kind
  | .data => .data
  | .facility _ => .facility
  | .group _ => .group
  | .schedule _ => .schedule
  | .activity _ => .activity
  | .time _ => .time

/-- Snapshot activity (`schema.Schedule_Activity`): explicit reservation flag
and the per-day time lists. -/
structure SActivity where
  resv : Option Bool
  days : List (List Unit)
deriving Repr

structure SSchedule where
  dateRange : PRange
  activities : List SActivity
deriving Repr

structure SGroup where
  noResv : Bool
  links : List Unit
  schedules : List SSchedule
deriving Repr

structure SFacility where
  sourceDate : Option GoTime
  groups : List SGroup
deriving Repr

/-- A snapshot (`schema.Data`). -/
structure SData where
  facilities : List SFacility
deriving Repr

/-! ## Index build (`Indexer.index`): depth-first flattening into `obj[]` -/

def objsOfActivity (a : SActivity) : List Obj :=
  .activity ⟨a.resv.getD false, a.resv.isSome⟩ ::
    (a.days.enum.flatMap (fun pr => pr.2.map (fun _ => Obj.time ⟨pr.1⟩)))

def objsOfSchedule (s : SSchedule) : List Obj :=
  .schedule ⟨s.dateRange⟩ :: s.activities.flatMap objsOfActivity

def objsOfGroup (g : SGroup) : List Obj :=
  .group ⟨g.noResv, g.links⟩ :: g.schedules.flatMap objsOfSchedule

def objsOfFacility (f : SFacility) : List Obj :=
  .facility ⟨f.sourceDate⟩ :: f.groups.flatMap objsOfGroup

def objsOfData (d : SData) : List Obj :=
  .data :: d.facilities.flatMap objsOfFacility

/-- The core of an `Index`: the flat object array in depth-first order. -/
structure Index where
  obj : List Obj
deriving Repr

def buildIndex (d : SData) : Index :=
  ⟨objsOfData d⟩

def kindAt (idx : Index) (p : Nat) : Option Kind :=
  (idx.obj.get? p).map Obj.kind

/-- The per-kind type bitmap (`bData` … `bTime`): bit `i` set iff `obj[i]` has
that kind. -/
def typeBitmap (idx : Index) (k : Kind) : List Nat :=
  bmOfPred idx.obj.length (fun q => kindAt idx q == some k)

/-- Membership test for the "not-a-child-of-T" bitmaps, written as the same
OR of per-kind tests used to build `bDataNotChild` … `bTimeNotChild`. -/
def notChildTest (t : Kind) (k : Kind) : Bool :=
  match t with
  | .data => k == .data
  | .facility => k == .data || k == .facility
  | .group => k == .data || k == .facility || k == .group
  | .schedule => k == .data || k == .facility || k == .group || k == .schedule
  | .activity =>
      k == .data || k == .facility || k == .group || k == .schedule || k == .activity
  | .time =>
      k == .data || k == .facility || k == .group || k == .schedule || k == .activity ||
        k == .time

/-- The "not-a-child-of-T" bitmap (`Or` of the type bitmaps at or above `t`). -/
def typeNotChildBitmap (idx : Index) (t : Kind) : List Nat :=
  bmOfPred idx.obj.length
    (fun q => match kindAt idx q with
      | some k => notChildTest t k
      | none => false)

/-- `baseRef.applyFilter`: clone of the bitmap ANDed with the filter (no-op
when the filter is nil). -/
def applyFilter (flt : Option (List Nat)) (b : List Nat) : List Nat :=
  match flt with
  | none => b
  | some f => bmAnd b f

/-- `childRefSeq[T, U]`: positions of kind-`U` objects from `p` up to the next
object at or above `T`'s level, masked by the filter, ascending. -/
def childSeq (idx : Index) (flt : Option (List Nat)) (t u : Kind) (p : Nat) : List Nat :=
  let until_ :=
    match bmNext (typeNotChildBitmap idx t) (p + 1) with
    | some n => n
    | none => idx.obj.length
  bmRangeBetween (applyFilter flt (typeBitmap idx u)) p until_

/-! ## Typed accessors (deref; Go panics become `none`) -/

def actAt (idx : Index) (p : Nat) : Option XActivity :=
  match idx.obj.get? p with
  | some (.activity a) => some a
  | _ => none

def grpAt (idx : Index) (p : Nat) : Option XGroup :=
  match idx.obj.get? p with
  | some (.group g) => some g
  | _ => none

def schAt (idx : Index) (p : Nat) : Option XSchedule :=
  match idx.obj.get? p with
  | some (.schedule s) => some s
  | _ => none

def facAt (idx : Index) (p : Nat) : Option XFacility :=
  match idx.obj.get? p with
  | some (.facility f) => some f
  | _ => none

/-! ## Depth-first string theory

`rkOf` is the rank string of the object array. `nextLEval` is the value the
`childRefSeq` "until" computation takes (next object at or below level `t`,
else the array length); `posIn`/`occ`/`childPosR` restate the child sequences
over the rank string so that the flattening invariant can be proved by
induction over the depth-first grammar `IsDFS`. -/

def rkOf (idx : Index) : List Nat :=
  idx.obj.map (fun o => o.kind.rank)

def nextLEval (ks : List Nat) (t : Nat) (i : Nat) : Nat :=
  match bmNext (bmOfPred ks.length (fun q => decide (ks.getD q 0 ≤ t))) i with
  | some n => n
  | none => ks.length

def posIn (ks : List Nat) (u : Nat) (lo hi : Nat) : List Nat :=
  (List.range ks.length).filter
    (fun q => decide (lo ≤ q) && decide (q < hi) && (ks.getD q 0 == u))

def occ (ks : List Nat) (u : Nat) : List Nat :=
  posIn ks u 0 ks.length

def childPosR (ks : List Nat) (v u : Nat) (c : Nat) : List Nat :=
  posIn ks u c (nextLEval ks v (c + 1))

/-- The grammar of depth-first flattened subtrees: a node of rank `k < 5` is
its rank followed by the concatenated flattenings of its rank-`k+1` children;
rank 5 (time ranges) are leaves. -/
inductive IsDFS : Nat → List Nat → Prop
  | leaf : IsDFS 5 [5]
  | node (k : Nat) (ls : List (List Nat)) (hk : k < 5)
      (h : ∀ l ∈ ls, IsDFS (k + 1) l) : IsDFS k (k :: ls.flatten)

/-! ## GuessReservationRequirement (uncached path of `refutil.go`) -/

/-- The sibling scan: walks the group's activities accumulating whether any is
explicitly marked reservation-yes / reservation-no, stopping once both are
seen (the early `break` in the loop). -/
def yesNoLoop (idx : Index) : List Nat → Bool → Bool → Bool × Bool
  | [], y, n => (y, n)
  | p :: rest, y, n =>
    let st : Bool × Bool :=
      match actAt idx p with
      | some a => if a.hasResv then (if a.resv then (true, n) else (y, true)) else (y, n)
      | none => (y, n)
    if st.1 && st.2 then st else yesNoLoop idx rest st.1 st.2

/-- `ActivityRef.GuessReservationRequirement`, uncached path (the cached path
is `guessCached`; their agreement is claim C10's subject). -/
def guessRR (idx : Index) (p : Nat) : Option (Bool × Bool) :=
  match actAt idx p with
  | none => none
  | some a =>
    if a.hasResv then some (a.resv, true)
    else
      match bmPrev (typeBitmap idx .group) p with
      | none => none
      | some g =>
        match grpAt idx g with
        | none => none
        | some grp =>
          let grpNoResv := grp.noResv
          let grpHasLink := !grp.links.isEmpty
          let yn := yesNoLoop idx (childSeq idx none .group .activity g) false false
          if grpNoResv then some (false, !(grpHasLink && !yn.1))
          else if !yn.1 && !yn.2 then some (grpHasLink, false)
          else if yn.1 && yn.2 then some (true, false)
          else if !yn.1 && yn.2 then some (true, grpHasLink)
          else if yn.1 && !yn.2 then some (false, false)
          else none

/-! ## ComputeEffectiveDateRange (uncached path of `refutil.go`) -/

/-- Outcome of parsing one side of the date range: an early `return … false`,
or a computed side (`none` when that side is absent/zero). -/
inductive SideRes
  | abort
  | ok (t : Option GoTime)
deriving DecidableEq, Repr

/-- The from-side block of `ComputeEffectiveDateRange`. -/
def fromStep (sd : Option GoTime) : Option PD → SideRes
  | none => .ok none
  | some x =>
    if !pdIsValid x then .abort
    else
      match x.month with
      | none => .abort
      | some m =>
        let yearO : Option Int :=
          match x.year with
          | some y => some y
          | none => sd.map (·.year)
        match yearO with
        | none => .abort
        | some y =>
          let d := x.day.getD 1
          .ok (some (timeDate y m d))

/-- The to-side block of `ComputeEffectiveDateRange` (the revision with the
from-month inheritance rule, per the cited lines). -/
def toStep (sd : Option GoTime) (fr : Option GoTime) : Option PD → SideRes
  | none => .ok none
  | some x =>
    if !pdIsValid x then .abort
    else
      let monthO : Option Int :=
        match x.month with
        | some m => some m
        | none =>
          match fr with
          | some f => if x.year.isNone || x.year == some f.year then some f.month else none
          | none => none
      match monthO with
      | none => .abort
      | some m =>
        match x.year with
        | some y =>
          let d := x.day.getD (daysInMonth y m)
          .ok (some (subOneNano (timeDate y m (d + 1))))
        | none =>
          let yearO : Option Int :=
            match fr with
            | some f => some f.year
            | none => sd.map (·.year)
          match yearO with
          | none => .abort
          | some y0 =>
            let y :=
              match fr with
              | some f =>
                if f.year == y0 then (if m < f.month then y0 + 1 else y0) else y0
              | none =>
                match sd with
                | some s =>
                  if s.year == y0 then (if m < s.month then y0 + 1 else y0) else y0
                | none => y0
            let d := x.day.getD (daysInMonth y m)
            .ok (some (subOneNano (timeDate y m (d + 1))))

/-- `ScheduleRef.ComputeEffectiveDateRange` on the schedule's parsed range and
the schedule date, uncached path. -/
def computeEDR (sd : Option GoTime) (r : PRange) : Option GoTime × Option GoTime × Bool :=
  if !(r.fromSide.isSome || r.toSide.isSome) then (none, none, false)
  else
    match fromStep sd r.fromSide with
    | .abort => (none, none, false)
    | .ok fr =>
      match toStep sd fr r.toSide with
      | .abort => (fr, none, false)
      | .ok t =>
        if fr.isNone && t.isNone then (fr, t, false)
        else if goAfter fr t then (fr, t, false)
        else (fr, t, true)

/-- The schedule date: the index `updated` time, overridden by the facility's
non-zero source date. -/
def scheduleDateOf (updated : Option GoTime) (facDate : Option GoTime) : Option GoTime :=
  match facDate with
  | some d => some d
  | none => updated

/-- The full uncached `ComputeEffectiveDateRange`, navigating to the parent
facility for the source date. -/
def cedrUncached (idx : Index) (updated : Option GoTime) (p : Nat) :
    Option (Option GoTime × Option GoTime × Bool) :=
  match schAt idx p with
  | none => none
  | some sch =>
    match bmPrev (typeBitmap idx .facility) p with
    | none => none
    | some fp =>
      match facAt idx fp with
      | none => none
      | some fac => some (computeEDR (scheduleDateOf updated fac.sourceDate) sch.dateRange)

/-! ## Precomputed caches (`Indexer.index`, lines after the import loop) -/

/-- Modelled from the spec: `nthOfType` (not among the provided sources;
characterized by the sequential counters asserted in `sanityCheck1`) — the
number of same-kind objects at smaller object indexes. -/
def nthOfType (idx : Index) (k : Kind) (p : Nat) : Nat :=
  ((typeBitmap idx k).filter (fun q => decide (q < p))).length

/-- An index together with the build-time caches and `updated`. -/
structure CachedIndex where
  core : Index
  guessRequired : List Nat
  guessDefinite : List Nat
  cedrFrom : List (Option GoTime)
  cedrTo : List (Option GoTime)
  cedrOk : List Nat
  updated : Option GoTime

/-- The build: the reservation bitmaps and the per-schedule date-range arrays
are filled by running the uncached computations; note that, as in the source,
both caches are computed while `updated` still holds the zero time — the
`updated` fold runs after them. -/
def buildCached (d : SData) : CachedIndex :=
  let idx := buildIndex d
  let acts := childSeq idx none .data .activity 0
  let req := acts.filter (fun p =>
    match guessRR idx p with
    | some pr => pr.1
    | none => false)
  let defi := acts.filter (fun p =>
    match guessRR idx p with
    | some pr => pr.2
    | none => false)
  let schs := childSeq idx none .data .schedule 0
  let rs := schs.map (fun p => cedrUncached idx none p)
  let froms := rs.map (fun r =>
    match r with
    | some v => v.1
    | none => none)
  let tos := rs.map (fun r =>
    match r with
    | some v => v.2.1
    | none => none)
  let oks := (schs.zip rs).filterMap (fun pr =>
    match pr.2 with
    | some v => if v.2.2 then some pr.1 else none
    | none => none)
  let upd := (childSeq idx none .data .facility 0).foldl
    (fun acc p =>
      match facAt idx p with
      | some f =>
        match f.sourceDate with
        | some dte => if goAfter (some dte) acc then some dte else acc
        | none => acc
      | none => acc)
    none
  ⟨idx, req, defi, froms, tos, oks, upd⟩

/-- The cached read path of `GuessReservationRequirement`: membership in the
two precomputed bitmaps. -/
def guessCached (ci : CachedIndex) (p : Nat) : Bool × Bool :=
  (ci.guessRequired.contains p, ci.guessDefinite.contains p)

/-- The cached read path of `ComputeEffectiveDateRange`: the parallel arrays
indexed by nth-schedule plus the ok bitmap. -/
def cedrCached (ci : CachedIndex) (p : Nat) : Option GoTime × Option GoTime × Bool :=
  let i := nthOfType ci.core .schedule p
  (ci.cedrFrom.getD i none, ci.cedrTo.getD i none, ci.cedrOk.contains p)

/-! ## MutableDataRef (`refmut.go`) under an explicit filter store

Go filters are mutable bitmaps shared by pointer; the store models that heap:
each allocated filter occupies a slot, a `MutableDataRef` owns one slot and
mutates it in place, and `MutableDataRef.Data` (freeze) clones the filter into
a fresh slot. -/

structure Store where
  filters : List (List Nat)

def getFilter (st : Store) (i : Nat) : List Nat :=
  st.filters.getD i []

def allocFilter (st : Store) (b : List Nat) : Store × Nat :=
  (⟨st.filters ++ [b]⟩, st.filters.length)

/-- A mutable view: the index plus its owned filter slot. -/
structure MutRef where
  idx : Index
  slot : Nat

/-- A frozen reference produced by `MutableDataRef.Data`. -/
structure FrozenRef where
  idx : Index
  slot : Nat

/-- `DataRef.Mutate`: `withFilter` — clone the filter (an all-ones filter when
previously nil) into a fresh slot. -/
def mutate (st : Store) (idx : Index) (flt : Option Nat) : Store × MutRef :=
  let b :=
    match flt with
    | none => bmOfPred idx.obj.length (fun _ => true)
    | some s => getFilter st s
  let r := allocFilter st b
  (r.1, ⟨idx, r.2⟩)

/-- `MutableDataRef.Data`: freeze by cloning the view's filter into a fresh
slot (the copy that keeps future mutations from affecting the result). -/
def freeze (st : Store) (m : MutRef) : Store × FrozenRef :=
  let r := allocFilter st (getFilter st m.slot)
  (r.1, ⟨m.idx, r.2⟩)

/-- `mutRemoveRef`: if `p` is still present, clear the filter bits from `p` up
to (not including) the next object at or above `t`'s level. -/
def removeStep (idx : Index) (t : Kind) (p : Nat) (flt : List Nat) : List Nat :=
  if !flt.contains p then flt
  else
    let until_ :=
      match bmNext (typeNotChildBitmap idx t) (p + 1) with
      | some n => n
      | none => idx.obj.length
    flt.filter (fun q => decide (q < p) || decide (until_ ≤ q))

/-- `Filter<T>`: iterate the children of the data object under the view and
remove those failing the predicate.  Per the note in the source, the removals
only clear bits at or after the element being visited, so the set of visited
elements is the child sequence under the filter the loop started with. -/
def filterStep (idx : Index) (t : Kind) (pred : Nat → Bool) (flt : List Nat) : List Nat :=
  (childSeq idx (some flt) .data t 0).foldl
    (fun f p => if pred p then f else removeStep idx t p f) flt

/-- `Elide<T>`: remove each object of kind `t` whose filtered child sequence
at kind `u` is empty (emptiness checked against the evolving filter, as in the
source loop). -/
def elideStep (idx : Index) (t u : Kind) (flt : List Nat) : List Nat :=
  (childSeq idx (some flt) .data t 0).foldl
    (fun f p => if (childSeq idx (some f) t u p).isEmpty then removeStep idx t p f else f) flt

/-- One mutation of a view (`Remove*` / `Filter*` / `Elide*` / `Elide`). -/
inductive MutOp
  | removeFacility (p : Nat)
  | removeGroup (p : Nat)
  | removeSchedule (p : Nat)
  | removeActivity (p : Nat)
  | removeTime (p : Nat)
  | filterFacilities (pred : Nat → Bool)
  | filterGroups (pred : Nat → Bool)
  | filterSchedules (pred : Nat → Bool)
  | filterActivities (pred : Nat → Bool)
  | filterTimes (pred : Nat → Bool)
  | elideFacilities
  | elideGroups
  | elideSchedules
  | elideActivities
  | elideAll

def opStep (idx : Index) : MutOp → List Nat → List Nat
  | .removeFacility p, f => removeStep idx .facility p f
  | .removeGroup p, f => removeStep idx .group p f
  | .removeSchedule p, f => removeStep idx .schedule p f
  | .removeActivity p, f => removeStep idx .activity p f
  | .removeTime p, f => removeStep idx .time p f
  | .filterFacilities pr, f => filterStep idx .facility pr f
  | .filterGroups pr, f => filterStep idx .group pr f
  | .filterSchedules pr, f => filterStep idx .schedule pr f
  | .filterActivities pr, f => filterStep idx .activity pr f
  | .filterTimes pr, f => filterStep idx .time pr f
  | .elideFacilities, f => elideStep idx .facility .group f
  | .elideGroups, f => elideStep idx .group .schedule f
  | .elideSchedules, f => elideStep idx .schedule .activity f
  | .elideActivities, f => elideStep idx .activity .time f
  | .elideAll, f =>
      elideStep idx .facility .group
        (elideStep idx .group .schedule
          (elideStep idx .schedule .activity
            (elideStep idx .activity .time f)))

/-- Applying a mutation writes the view's own slot in place. -/
def applyOp (st : Store) (m : MutRef) (op : MutOp) : Store :=
  ⟨st.filters.set m.slot (opStep m.idx op (getFilter st m.slot))⟩

def applyOps (st : Store) (m : MutRef) : List MutOp → Store
  | [] => st
  | op :: rest => applyOps (applyOp st m op) m rest

/-- The objects visible through a frozen reference's child iterator. -/
def visibleChildren (st : Store) (r : FrozenRef) (t u : Kind) (p : Nat) : List Nat :=
  childSeq r.idx (some (getFilter st r.slot)) t u p

/-! ## Durable cache: revision numbering of the import loop (`importCommit`) -/

/-- `SELECT revision FROM data WHERE updated = :updated ORDER BY revision DESC
LIMIT 1`, coalesced to 0. -/
def maxRevision (rows : List (Int × Nat)) (u : Int) : Nat :=
  rows.foldl (fun acc r => if r.1 == u then max acc r.2 else acc) 0

/-- The import loop: insert one data row per commit, in commit-date order,
with `revision = 1 + coalesce(max revision among rows with the same updated,
0)`.  Rows are `(updated, revision)`. -/
def importAll : List Int → List (Int × Nat) → List (Int × Nat)
  | [], rows => rows
  | u :: rest, rows => importAll rest (rows ++ [(u, 1 + maxRevision rows u)])

/-! ## Version resolver (`Cache.ResolveVersion`)

Specs are byte strings.  The fixed-layout parsers mirror
`time.ParseInLocation` with the layouts in the source — including that the
`T`-forms use the 12-hour layout `03`, so hours above 12 fail to parse. -/

/-- A stored `data` row: `(id, updated, revision)`. -/
structure DRow where
  id : List Nat
  updated : GoTime
  revision : Nat
deriving DecidableEq, Repr

/-- Descending `(updated, revision)` ordering used by the resolver queries. -/
def rowGE (a b : DRow) : Bool :=
  if a.updated == b.updated then decide (b.revision ≤ a.revision)
  else goAfterT a.updated b.updated

/-- Insertion sort by descending `(updated, revision)` (the `ORDER BY updated
DESC, revision DESC`). -/
def insertRowDesc (r : DRow) : List DRow → List DRow
  | [] => [r]
  | x :: xs => if rowGE r x then r :: x :: xs else x :: insertRowDesc r xs

def sortRowsDesc : List DRow → List DRow
  | [] => []
  | r :: rs => insertRowDesc r (sortRowsDesc rs)

/-- Strict wall-clock order (`updated < upper` in the queries). -/
def goBeforeT (a b : GoTime) : Bool :=
  goAfterT b a

/-- One byte of an ASCII digit. -/
def digitVal (b : Nat) : Option Nat :=
  if 48 ≤ b ∧ b ≤ 57 then some (b - 48) else none

def parse2 : List Nat → Option (Nat × List Nat)
  | b0 :: b1 :: rest =>
    match digitVal b0, digitVal b1 with
    | some d0, some d1 => some (d0 * 10 + d1, rest)
    | _, _ => none
  | _ => none

def parse4 : List Nat → Option (Nat × List Nat)
  | b0 :: b1 :: b2 :: b3 :: rest =>
    match digitVal b0, digitVal b1, digitVal b2, digitVal b3 with
    | some d0, some d1, some d2, some d3 =>
        some (((d0 * 10 + d1) * 10 + d2) * 10 + d3, rest)
    | _, _, _, _ => none
  | _ => none

def lit (c : Nat) : List Nat → Option (List Nat)
  | b :: rest => if b == c then some rest else none
  | _ => none

/-- Parse `2006-01` (year-month), with the month range check of `time.Parse`. -/
def parseYM (s : List Nat) : Option (Nat × Nat) :=
  match parse4 s with
  | none => none
  | some (y, s) =>
    match lit 45 s with
    | none => none
    | some s =>
      match parse2 s with
      | none => none
      | some (m, s) =>
        if s.isEmpty ∧ 1 ≤ m ∧ m ≤ 12 then some (y, m) else none

/-- Parse `2006-01-02`, with `time.Parse`'s day-in-month range check. -/
def parseYMD (s : List Nat) : Option (Nat × Nat × Nat) :=
  match parse4 s with
  | none => none
  | some (y, s) =>
    match lit 45 s with
    | none => none
    | some s =>
      match parse2 s with
      | none => none
      | some (m, s) =>
        match lit 45 s with
        | none => none
        | some s =>
          match parse2 s with
          | none => none
          | some (d, s) =>
            if s.isEmpty ∧ 1 ≤ m ∧ m ≤ 12 ∧ 1 ≤ d ∧ (d : Int) ≤ daysInMonth y m then
              some (y, m, d)
            else none

/-- Parse the prefix `2006-01-02T03:04` — note the 12-hour `03` layout: hours
above 12 are rejected by `time.Parse` ("hour out of range"). -/
def parseYMDHM (s : List Nat) : Option (Nat × Nat × Nat × Nat × Nat) :=
  match parse4 s with
  | none => none
  | some (y, s) =>
    match lit 45 s with
    | none => none
    | some s =>
      match parse2 s with
      | none => none
      | some (m, s) =>
        match lit 45 s with
        | none => none
        | some s =>
          match parse2 s with
          | none => none
          | some (d, s) =>
            match lit 84 s with
            | none => none
            | some s =>
              match parse2 s with
              | none => none
              | some (hh, s) =>
                match lit 58 s with
                | none => none
                | some s =>
                  match parse2 s with
                  | none => none
                  | some (mm, s) =>
                    if s.isEmpty ∧ 1 ≤ m ∧ m ≤ 12 ∧ 1 ≤ d ∧
                        (d : Int) ≤ daysInMonth y m ∧ hh ≤ 12 ∧ mm ≤ 59 then
                      some (y, m, d, hh, mm)
                    else none

/-- Parse `2006-01-02T03:04:05` (12-hour hour field, as above). -/
def parseYMDHMS (s : List Nat) : Option (Nat × Nat × Nat × Nat × Nat × Nat) :=
  match s.length == 19 with
  | false => none
  | true =>
    match parseYMDHM (s.take 16) with
    | none => none
    | some (y, m, d, hh, mm) =>
      match lit 58 (s.drop 16) with
      | none => none
      | some s2 =>
        match parse2 s2 with
        | none => none
        | some (ss, rest) =>
          if rest.isEmpty ∧ ss ≤ 59 then some (y, m, d, hh, mm, ss) else none

/-- A wall time with a nonzero time-of-day component (for the minute/second
window bounds). -/
def timeDateAt (y m d : Int) (nano : Int) : GoTime :=
  let t := timeDate y m d
  ⟨t.year, t.month, t.day, nano⟩

/-- The upper bound of the window named by a date-prefix spec, exactly as the
source computes it: `YYYY-MM → Date(y, m+1, 0)` (midnight of the **last** day
of the month), `YYYY-MM-DD → Date(y, m, d+1)`, minute form → one minute
later, second form → one second later; `none` when no layout parses. -/
def specUpper (spec : List Nat) : Option GoTime :=
  if spec.length == 7 then
    match parseYM spec with
    | some (y, m) => some (timeDate y (m + 1) 0)
    | none => none
  else if spec.length == 10 then
    match parseYMD spec with
    | some (y, m, d) => some (timeDate y m (d + 1))
    | none => none
  else if spec.length == 16 then
    match parseYMDHM spec with
    | some (y, m, d, hh, mm) =>
        some (timeDateAt y m d (((hh * 60 + mm + 1) : Int) * 60000000000))
    | none => none
  else if spec.length == 19 then
    match parseYMDHMS spec with
    | some (y, m, d, hh, mm, ss) =>
        some (timeDateAt y m d ((((hh * 60 + mm) * 60 + ss + 1) : Int) * 1000000000))
    | none => none
  else none

/-- `strconv.ParseInt` for the `latest-N` offsets (sign plus decimal digits). -/
def parseIntBytes (s : List Nat) : Option Int :=
  match s with
  | [] => none
  | b :: rest =>
    let pr : Bool × List Nat := if b == 45 then (true, rest) else (false, s)
    match pr.2 with
    | [] => none
    | ds =>
      let go : Option Nat := ds.foldl
        (fun acc b =>
          match acc, digitVal b with
          | some n, some d => some (n * 10 + d)
          | _, _ => none)
        (some 0)
      match go with
      | some n => some (if pr.1 then -(n : Int) else (n : Int))
      | none => none

/-- `Cache.ResolveVersion` (without the database error paths): returns
`(id, updated, spec_was_valid)` with the zero `updated` as `none`. -/
def resolveVersion (rows : List DRow) (spec : List Nat) :
    List Nat × Option GoTime × Bool :=
  let getOne : List DRow → List Nat × Option GoTime × Bool := fun matches_ =>
    match (sortRowsDesc matches_).head? with
    | some r => (r.id, some r.updated, true)
    | none => ([], none, true)
  if spec.length == 32 then getOne (rows.filter (fun r => r.id == spec))
  else if spec.take 6 == [108, 97, 116, 101, 115, 116] then
    let offset := spec.drop 6
    if offset.isEmpty then getOne rows
    else
      match parseIntBytes offset with
      | some n =>
        if n < 0 then
          match (sortRowsDesc rows).get? (-n).toNat with
          | some r => (r.id, some r.updated, true)
          | none => ([], none, true)
        else ([], none, false)
      | none => ([], none, false)
  else
    match specUpper spec with
    | some upper => getOne (rows.filter (fun r => goBeforeT r.updated upper))
    | none => ([], none, false)

/-! ## UTF-8 decoding (Go `unicode/utf8.DecodeRune`) over byte strings -/

/-- Continuation byte test (`0x80 ≤ b ≤ 0xBF`). -/
def isCont (b : Nat) : Bool :=
  decide (128 ≤ b) && decide (b ≤ 191)

/-- `utf8.DecodeRune`: first rune and its size; `(0xFFFD, 1)` on an invalid or
truncated sequence, `(0xFFFD, 0)` on empty input. -/
def decodeRune : List Nat → Nat × Nat
  | [] => (0xFFFD, 0)
  | b0 :: rest =>
    if b0 < 0x80 then (b0, 1)
    else if b0 < 0xC2 then (0xFFFD, 1)
    else if b0 ≤ 0xDF then
      match rest with
      | b1 :: _ =>
        if isCont b1 then ((b0 - 0xC0) * 64 + (b1 - 0x80), 2) else (0xFFFD, 1)
      | [] => (0xFFFD, 1)
    else if b0 ≤ 0xEF then
      let lo : Nat := if b0 == 0xE0 then 0xA0 else 0x80
      let hi : Nat := if b0 == 0xED then 0x9F else 0xBF
      match rest with
      | b1 :: rest1 =>
        if decide (lo ≤ b1) && decide (b1 ≤ hi) then
          match rest1 with
          | b2 :: _ =>
            if isCont b2 then
              (((b0 - 0xE0) * 64 + (b1 - 0x80)) * 64 + (b2 - 0x80), 3)
            else (0xFFFD, 1)
          | [] => (0xFFFD, 1)
        else (0xFFFD, 1)
      | [] => (0xFFFD, 1)
    else if b0 ≤ 0xF4 then
      let lo : Nat := if b0 == 0xF0 then 0x90 else 0x80
      let hi : Nat := if b0 == 0xF4 then 0x8F else 0xBF
      match rest with
      | b1 :: rest1 =>
        if decide (lo ≤ b1) && decide (b1 ≤ hi) then
          match rest1 with
          | b2 :: rest2 =>
            if isCont b2 then
              match rest2 with
              | b3 :: _ =>
                if isCont b3 then
                  ((((b0 - 0xF0) * 64 + (b1 - 0x80)) * 64 + (b2 - 0x80)) * 64 +
                    (b3 - 0x80), 4)
                else (0xFFFD, 1)
              | [] => (0xFFFD, 1)
            else (0xFFFD, 1)
          | [] => (0xFFFD, 1)
        else (0xFFFD, 1)
      | [] => (0xFFFD, 1)
    else (0xFFFD, 1)

/-- `unicode.IsSpace` (Unicode White_Space property, as used by Go). -/
def isSpaceRune (r : Nat) : Bool :=
  [0x09, 0x0A, 0x0B, 0x0C, 0x0D, 0x20, 0x85, 0xA0, 0x1680,
   0x2000, 0x2001, 0x2002, 0x2003, 0x2004, 0x2005, 0x2006, 0x2007,
   0x2008, 0x2009, 0x200A, 0x2028, 0x2029, 0x202F, 0x205F, 0x3000].contains r

/-! ## CSV string quoting (`csv.go`) -/

/-- `fieldNeedsQuotesCSV` with the comma separator: empty fields are never
quoted; `\.` is always quoted; otherwise quote iff a `"`/CR/LF/comma byte
occurs or the first rune is whitespace. -/
def fieldNeedsQuotesCSV (field : List Nat) : Bool :=
  if field.isEmpty then false
  else if field == [92, 46] then true
  else if field.any (fun c => c == 10 || c == 13 || c == 34 || c == 44) then true
  else isSpaceRune (decodeRune field).1

/-- The per-byte rewriting applied inside a quoted field (with CRLF rows):
`"` doubles, a bare LF becomes CRLF, everything else copies. -/
def escQuotedCSV (c : Nat) : List Nat :=
  if c == 34 then [34, 34]
  else if c == 10 then [13, 10]
  else [c]

/-- `stickyBufferedWriter.StringInQuotesCSV`: scan for the next special byte
(`IndexAny(field, "\"\r\n")`), copy the prefix verbatim, encode the special
byte, repeat. -/
def stringInQuotesCSV (s : List Nat) : List Nat :=
  if h : s.isEmpty then []
  else
    let i := s.findIdx (fun c => c == 34 || c == 13 || c == 10)
    s.take i ++
      (match h2 : s.drop i with
       | [] => []
       | c :: rest => escQuotedCSV c ++ stringInQuotesCSV rest)
termination_by s.length
decreasing_by
  have h3 : (s.drop i).length = rest.length + 1 := by rw [h2]; simp
  have h4 : (s.drop i).length = s.length - i := List.length_drop i s
  omega

/-- `stickyBufferedWriter.StringCSV` (without the leading-comma flag): write
raw, or wrapped in quotes with the in-quotes rewriting. -/
def stringCSV (s : List Nat) : List Nat :=
  if !fieldNeedsQuotesCSV s then s
  else [34] ++ stringInQuotesCSV s ++ [34]

/-! ## CSV table emission (`writeTableRowsCSV` and the row/column writers)

Reflection metadata becomes an explicit column list; field values are the
scalar shapes the five tables use (strings, string slices, ints, bools; the
two float columns are not modelled — floating point is out of scope and no
claim depends on float rendering). -/

structure CsvCol where
  name : List Nat
  emptyzero : Bool

inductive FieldVal
  | str (s : List Nat)
  | strs (l : List (List Nat))
  | int (n : Int)
  | bool (b : Bool)

/-- Decimal rendering of a natural number (`strconv.AppendInt` digits). -/
def natDecimal (n : Nat) : List Nat :=
  if h : n < 10 then [48 + n]
  else natDecimal (n / 10) ++ [48 + n % 10]
termination_by n
decreasing_by
  exact Nat.div_lt_self (by omega) (by omega)

def intDecimal (n : Int) : List Nat :=
  if n < 0 then 45 :: natDecimal (-n).toNat else natDecimal n.toNat

/-- `writeFieldCSV` (scalar fields; `arr` = inside a quoted slice, where an
embedded comma is an error). -/
def writeFieldCSV (v : FieldVal) (arr : Bool) : Option (List Nat) :=
  match v with
  | .str s =>
    if arr then
      if s.contains 44 then none else some (stringInQuotesCSV s)
    else some (stringCSV s)
  | .strs _ => none
  | .int n => some (intDecimal n)
  | .bool b => some (if b then [49] else [48])

/-- Is the value the zero value of its shape (for `emptyzero`)? A nil slice in
Go is modelled as the empty list. -/
def fieldIsZero : FieldVal → Bool
  | .str s => s.isEmpty
  | .strs l => l.isEmpty
  | .int n => n == 0
  | .bool b => !b

/-- `writeColumnCSV`: header cell, or the (possibly empty-for-zero) value;
slice columns become one quoted comma-joined cell. -/
def writeColumnCSV (col : CsvCol) (v : FieldVal) (header : Bool) : Option (List Nat) :=
  if header then some (stringCSV col.name)
  else if col.emptyzero && fieldIsZero v then some []
  else
    match v with
    | .strs l =>
      if l.isEmpty then some []
      else
        match (l.mapM (fun s => writeFieldCSV (.str s) true)) with
        | some parts => some ([34] ++ (parts.intersperse [44]).flatten ++ [34])
        | none => none
    | _ => writeFieldCSV v false

/-- `writeRowCSV`: comma-joined column cells followed by CRLF. -/
def writeRowCSV (cols : List CsvCol) (vals : List FieldVal) (header : Bool) :
    Option (List Nat) :=
  match (cols.zip vals).mapM (fun cv => writeColumnCSV cv.1 cv.2 header) with
  | some cells => some ((cells.intersperse [44]).flatten ++ [13, 10])
  | none => none

/-- `writeTableRowsCSV`: for each row, emit it — writing the header first when
handling row index 0.  Nothing at all is written for a rowless table. -/
def writeTableRowsCSV (cols : List CsvCol) (rows : List (List FieldVal)) :
    Option (List Nat) :=
  match rows with
  | [] => some []
  | r0 :: _ =>
    let chunks := rows.enum.mapM (fun jr =>
      match writeRowCSV cols jr.2 false with
      | some body =>
        if jr.1 == 0 then
          match writeRowCSV cols r0 true with
          | some hdr => some (hdr ++ body)
          | none => none
        else some body
      | none => none)
    match chunks with
    | some cs => some cs.flatten
    | none => none

/-! ## JSON string writer (`appendStringJSON` in the simple-dataset sources)

The Go function iterates `for i := range len(s)` — a Go 1.22 range-over-int
loop whose iteration variable is reassigned every iteration, so the `i++` and
`i += size` statements inside the body do **not** advance the loop; the body
runs once per byte index.  The embedding reproduces that behavior exactly:
per-index state is `(out, start)` and the index always advances by one. -/

/-- Go `jsonSafeSet`: printable ASCII except `"` and `\`. -/
def jsonSafeSet (b : Nat) : Bool :=
  decide (0x20 ≤ b) && decide (b ≤ 0x7F) && !(b == 34) && !(b == 92)

def hexDigit (n : Nat) : Nat :=
  if n < 10 then 48 + n else 97 + (n - 10)

/-- The `\u00XX` escape for an unsafe ASCII byte, or the short escapes. -/
def escURun (b : Nat) : List Nat :=
  if b == 92 || b == 34 then [92, b]
  else if b == 10 then [92, 110]
  else if b == 13 then [92, 114]
  else if b == 9 then [92, 116]
  else [92, 117, 48, 48, hexDigit (b / 16), hexDigit (b % 16)]

/-- One iteration of the byte loop at index `i` with state `(out, start)`. -/
def jsonStep (s : List Nat) (st : List Nat × Nat) (i : Nat) : List Nat × Nat :=
  let b := s.getD i 0
  if b < 0x80 then
    if jsonSafeSet b then st
    else
      (st.1 ++ (s.drop st.2).take (i - st.2) ++ escURun b, i + 1)
  else
    let cs := decodeRune (s.drop i)
    if cs.1 == 0xFFFD && cs.2 == 1 then
      (st.1 ++ (if st.2 < i then (s.drop st.2).take (i - st.2) else []) ++
        [92, 117, 102, 102, 102, 100], i + 1)
    else if cs.1 == 0x2028 || cs.1 == 0x2029 then
      (st.1 ++ (if st.2 < i then (s.drop st.2).take (i - st.2) else []) ++
        [92, 117, 50, 48, 50] ++ [hexDigit (cs.1 % 16)], i + cs.2)
    else st

/-- `appendStringJSON e s`: quote, run the per-byte loop, flush the tail,
close quote. -/
def appendStringJSON (e : List Nat) (s : List Nat) : List Nat :=
  let st := (List.range s.length).foldl (jsonStep s) (e ++ [34], 0)
  st.1 ++ (if st.2 < s.length then s.drop st.2 else []) ++ [34]

/-! ## Spec-side definitions (written from the claims' wording) -/

/-- Claim C2's decision table, first matching rule first: over the activity's
explicit flag, the group's explicit no-reservation flag, link presence, and
whether any activity of the group is explicitly marked yes / no. -/
def specReservationTable (explicit : Option Bool)
    (groupNoResv groupHasLink yes no : Bool) : Bool × Bool :=
  match explicit with
  | some v => (v, true)
  | none =>
    if groupNoResv then (false, !(groupHasLink && !yes))
    else if !yes && !no then (groupHasLink, false)
    else if yes && no then (true, false)
    else if !yes && no then (true, groupHasLink)
    else (false, false)

/-- Any activity among the positions is explicitly marked reservation-yes. -/
def grpExplicitYes (idx : Index) (sibs : List Nat) : Bool :=
  sibs.any (fun q =>
    match actAt idx q with
    | some a => a.hasResv && a.resv
    | none => false)

/-- Any activity among the positions is explicitly marked reservation-no. -/
def grpExplicitNo (idx : Index) (sibs : List Nat) : Bool :=
  sibs.any (fun q =>
    match actAt idx q with
    | some a => a.hasResv && !a.resv
    | none => false)

/-- The to-side filling rule exactly as claim C3 words it: a missing to month
unconditionally inherits the from month; a missing to year prefers the from
year, rolled forward by one exactly when the resulting to month is strictly
below the from month (falling back to the schedule date's year when there is
no from date, where the claim is silent about rolling); a missing day becomes
the last day of the month; the result is the start of the following day minus
one nanosecond. -/
def claimToFill (sd : Option GoTime) (fr : Option GoTime) (x : PD) : Option GoTime :=
  let monthO : Option Int :=
    match x.month with
    | some m => some m
    | none => fr.map (·.month)
  match monthO with
  | none => none
  | some m =>
    let yearO : Option Int :=
      match x.year with
      | some y => some y
      | none =>
        match fr with
        | some f => some (if m < f.month then f.year + 1 else f.year)
        | none => sd.map (·.year)
    match yearO with
    | none => none
    | some y =>
      let d := x.day.getD (daysInMonth y m)
      some (subOneNano (timeDate y m (d + 1)))

/-- The amended to-side filling rule (what the source actually does): the
from month is inherited only when the from date is present and the to year is
absent or equal to the from date's year; a missing to year takes the from
date's year rolled forward exactly when the to month is strictly below the
from date's month, else the schedule date's year rolled against the schedule
date's month, else the side fails; a missing day becomes the last day of the
month; the result is the start of the following day minus one nanosecond.
`none` means the whole computation returns `ok = false`. -/
def amendedToFill (sd : Option GoTime) (fr : Option GoTime) (x : PD) : Option GoTime :=
  if !pdIsValid x then none
  else
    let monthO : Option Int :=
      match x.month with
      | some m => some m
      | none =>
        match fr with
        | some f => if x.year.isNone || x.year == some f.year then some f.month else none
        | none => none
    match monthO with
    | none => none
    | some m =>
      let yearO : Option Int :=
        match x.year with
        | some y => some y
        | none =>
          match fr with
          | some f => some (if m < f.month then f.year + 1 else f.year)
          | none =>
            match sd with
            | some s => some (if m < s.month then s.year + 1 else s.year)
            | none => none
      match yearO with
      | none => none
      | some y =>
        let d := x.day.getD (daysInMonth y m)
        some (subOneNano (timeDate y m (d + 1)))

/-- Claim C5's quoting condition: the field contains a quote, CR, LF or comma
byte, or its first rune is whitespace, or it is the two-byte string `\.`. -/
def claimQuoteCond (s : List Nat) : Bool :=
  (s.any (fun c => c == 34 || c == 13 || c == 10 || c == 44)) ||
    isSpaceRune (decodeRune s).1 || (s == [92, 46])

/-! ## Structured date-prefix specs for claim C4 -/

/-- The four date-prefix spec forms. -/
inductive DSpec
  | ym (y m : Nat)
  | ymd (y m d : Nat)
  | ymdhm (y m d hh mm : Nat)
  | ymdhms (y m d hh mm ss : Nat)

/-- Well-formed rendered specs: in-range fields, with the hour capped at 12
because the source parses the hour with the 12-hour layout `03`. -/
def DSpec.valid : DSpec → Prop
  | .ym y m => y ≤ 9999 ∧ 1 ≤ m ∧ m ≤ 12
  | .ymd y m d =>
      y ≤ 9999 ∧ 1 ≤ m ∧ m ≤ 12 ∧ 1 ≤ d ∧ d ≤ 31 ∧ (d : Int) ≤ daysInMonth y m
  | .ymdhm y m d hh mm =>
      y ≤ 9999 ∧ 1 ≤ m ∧ m ≤ 12 ∧ 1 ≤ d ∧ d ≤ 31 ∧ (d : Int) ≤ daysInMonth y m ∧
        hh ≤ 12 ∧ mm ≤ 59
  | .ymdhms y m d hh mm ss =>
      y ≤ 9999 ∧ 1 ≤ m ∧ m ≤ 12 ∧ 1 ≤ d ∧ d ≤ 31 ∧ (d : Int) ≤ daysInMonth y m ∧
        hh ≤ 12 ∧ mm ≤ 59 ∧ ss ≤ 59

def render2 (n : Nat) : List Nat :=
  [48 + n / 10, 48 + n % 10]

def render4 (n : Nat) : List Nat :=
  [48 + n / 1000, 48 + n / 100 % 10, 48 + n / 10 % 10, 48 + n % 10]

/-- The spec string `YYYY-MM[-DD[THH:MM[:SS]]]`. -/
def renderSpec : DSpec → List Nat
  | .ym y m => render4 y ++ [45] ++ render2 m
  | .ymd y m d => render4 y ++ [45] ++ render2 m ++ [45] ++ render2 d
  | .ymdhm y m d hh mm =>
      render4 y ++ [45] ++ render2 m ++ [45] ++ render2 d ++ [84] ++ render2 hh ++
        [58] ++ render2 mm
  | .ymdhms y m d hh mm ss =>
      render4 y ++ [45] ++ render2 m ++ [45] ++ render2 d ++ [84] ++ render2 hh ++
        [58] ++ render2 mm ++ [58] ++ render2 ss

/-- The window upper bound the source uses: for month specs the start of the
**last** day of the month (`Date(y, m+1, 0)`), for the other forms the start
of the following day / minute / second. -/
def DSpec.upper : DSpec → GoTime
  | .ym y m => timeDate y (m + 1) 0
  | .ymd y m d => timeDate y m (d + 1)
  | .ymdhm y m d hh mm => timeDateAt y m d (((hh * 60 + mm + 1) : Int) * 60000000000)
  | .ymdhms y m d hh mm ss =>
      timeDateAt y m d ((((hh * 60 + mm) * 60 + ss + 1) : Int) * 1000000000)

/-! ## Concrete inputs used by witnesses and counterexamples -/

def demoActB1 : SActivity := ⟨some true, [[()], []]⟩

def demoActB2 : SActivity := ⟨none, [[(), ()]]⟩

def demoSchB : SSchedule :=
  ⟨⟨some ⟨none, some 3, some 1⟩, some ⟨none, some 5, none⟩⟩, [demoActB1, demoActB2]⟩

def demoGrpB : SGroup := ⟨false, [()], [demoSchB]⟩

def demoFacA : SFacility := ⟨some (timeDate 2025 6 15), []⟩

def demoFacB : SFacility := ⟨none, [demoGrpB]⟩

/-- Two facilities; the first carries the only source date, the second holds
one group, one schedule (with a year-less parsed range), and two activities
with three time ranges. -/
def demoData : SData := ⟨[demoFacA, demoFacB]⟩

/-- C3 counterexample range: from `2025-03-01`, to `{year 2026, no month,
day 5}`. -/
def rC3 : PRange := ⟨some ⟨some 2025, some 3, some 1⟩, some ⟨some 2026, none, some 5⟩⟩

def xC3 : PD := ⟨some 2026, none, some 5⟩

/-- C4 counterexample row: updated `2025-09-30` at noon. -/
def rowC4 : DRow := ⟨[65, 66], ⟨2025, 9, 30, 43200000000000⟩, 1⟩

/-- The spec string `2025-09`. -/
def specC4 : List Nat := [50, 48, 50, 53, 45, 48, 57]

/-- A one-column table used by the C7 counterexample (`name`). -/
def demoCols : List CsvCol := [⟨[110, 97, 109, 101], false⟩]

/-! # Theorems

First the depth-first-string theory behind claim C1, then the per-claim
results and witnesses. -/

theorem getD_mem_of_lt {l : List Nat} {n : Nat} (h : n < l.length) :
    l.getD n 0 ∈ l := by
  rw [List.getD_eq_getElem?_getD, List.getElem?_eq_getElem h]
  exact List.getElem_mem h

theorem mem_posIn {ks : List Nat} {u lo hi q : Nat} :
    q ∈ posIn ks u lo hi ↔ q < ks.length ∧ lo ≤ q ∧ q < hi ∧ ks.getD q 0 = u := by
  simp [posIn, List.mem_filter, List.mem_range, and_assoc]

theorem mem_occ {ks : List Nat} {u c : Nat} :
    c ∈ occ ks u ↔ c < ks.length ∧ ks.getD c 0 = u := by
  unfold occ
  rw [mem_posIn]
  constructor
  · rintro ⟨h1, _, _, h4⟩
    exact ⟨h1, h4⟩
  · rintro ⟨h1, h4⟩
    exact ⟨h1, Nat.zero_le _, h1, h4⟩

theorem head_filter_range_some {n : Nat} {g : Nat → Bool} {m : Nat}
    (hm : m < n) (hg : g m = true) (hlt : ∀ q, q < m → g q = false) :
    ((List.range n).filter g).head? = some m := by
  have hdecomp : n = (m + 1) + (n - (m + 1)) := by omega
  rw [hdecomp, List.range_add, List.filter_append, List.range_succ, List.filter_append]
  have h1 : (List.range m).filter g = [] := by
    rw [List.filter_eq_nil_iff]
    intro a ha
    simp only [List.mem_range] at ha
    simp [hlt a ha]
  have h2 : List.filter g [m] = [m] := by simp [hg]
  rw [h1, h2]
  simp

theorem head_filter_range_none {n : Nat} {g : Nat → Bool}
    (h : ∀ q, q < n → g q = false) :
    ((List.range n).filter g).head? = none := by
  have : (List.range n).filter g = [] := by
    rw [List.filter_eq_nil_iff]
    intro a ha
    simp only [List.mem_range] at ha
    simp [h a ha]
  rw [this]
  rfl

theorem bmNext_ofPred (len : Nat) (f : Nat → Bool) (i : Nat) :
    bmNext (bmOfPred len f) i =
      ((List.range len).filter (fun q => decide (i ≤ q) && f q)).head? := by
  unfold bmNext bmOfPred
  rw [List.filter_filter]

/-- Characterizing properties of the `childRefSeq` until-value. -/
theorem nextLEval_spec (ks : List Nat) (t i : Nat) (hi : i ≤ ks.length) :
    i ≤ nextLEval ks t i ∧ nextLEval ks t i ≤ ks.length ∧
      (∀ q, i ≤ q → q < nextLEval ks t i → ¬(ks.getD q 0 ≤ t)) ∧
      (nextLEval ks t i < ks.length → ks.getD (nextLEval ks t i) 0 ≤ t) := by
  unfold nextLEval
  rw [bmNext_ofPred]
  by_cases hex : ∃ q, i ≤ q ∧ q < ks.length ∧ ks.getD q 0 ≤ t
  · have hP : ∃ q, (fun q => i ≤ q ∧ q < ks.length ∧ ks.getD q 0 ≤ t) q := hex
    set m := Nat.find hP with hm
    obtain ⟨hmi, hmlen, hmle⟩ := Nat.find_spec hP
    have hhead :
        ((List.range ks.length).filter
          (fun q => decide (i ≤ q) && decide (ks.getD q 0 ≤ t))).head? = some m := by
      apply head_filter_range_some hmlen
      · rw [Bool.and_eq_true]
        exact ⟨decide_eq_true hmi, decide_eq_true hmle⟩
      · intro q hq
        have hmin := Nat.find_min hP hq
        by_cases hiq : i ≤ q
        · have hql : q < ks.length := by omega
          have hnle : ¬ks.getD q 0 ≤ t := fun hle => hmin ⟨hiq, hql, hle⟩
          show (decide (i ≤ q) && decide (ks.getD q 0 ≤ t)) = false
          rw [decide_eq_false hnle, Bool.and_false]
        · show (decide (i ≤ q) && decide (ks.getD q 0 ≤ t)) = false
          rw [decide_eq_false hiq, Bool.false_and]
    rw [hhead]
    have hred : (match some m with | some n => n | none => ks.length) = m := rfl
    rw [hred]
    refine ⟨hmi, by omega, ?_, fun _ => hmle⟩
    intro q hq1 hq2 hq3
    exact Nat.find_min hP hq2 ⟨hq1, by omega, hq3⟩
  · push_neg at hex
    have hhead :
        ((List.range ks.length).filter
          (fun q => decide (i ≤ q) && decide (ks.getD q 0 ≤ t))).head? = none := by
      apply head_filter_range_none
      intro q hq
      by_cases hiq : i ≤ q
      · have hnle := Nat.not_le.mpr (hex q hiq hq)
        show (decide (i ≤ q) && decide (ks.getD q 0 ≤ t)) = false
        rw [decide_eq_false hnle, Bool.and_false]
      · show (decide (i ≤ q) && decide (ks.getD q 0 ≤ t)) = false
        rw [decide_eq_false hiq, Bool.false_and]
    rw [hhead]
    have hred : (match (none : Option Nat) with | some n => n | none => ks.length) =
        ks.length := rfl
    rw [hred]
    refine ⟨hi, le_refl _, ?_, by omega⟩
    intro q hq1 hq2
    exact Nat.not_le.mpr (hex q hq1 (by omega))

theorem nextLEval_unique (ks : List Nat) (t i e : Nat) (hi : i ≤ ks.length)
    (h1 : i ≤ e) (h2 : e ≤ ks.length)
    (h3 : ∀ q, i ≤ q → q < e → ¬(ks.getD q 0 ≤ t))
    (h4 : e < ks.length → ks.getD e 0 ≤ t) :
    nextLEval ks t i = e := by
  obtain ⟨s1, s2, s3, s4⟩ := nextLEval_spec ks t i hi
  rcases Nat.lt_trichotomy (nextLEval ks t i) e with h | h | h
  · exact absurd (s4 (by omega)) (h3 _ s1 h)
  · exact h
  · exact absurd (h4 (by omega)) (s3 _ h1 h)

theorem getD_append_right_add (pre rest : List Nat) (i : Nat) :
    (pre ++ rest).getD (pre.length + i) 0 = rest.getD i 0 := by
  rw [List.getD_eq_getElem?_getD, List.getD_eq_getElem?_getD,
    List.getElem?_append_right (by omega)]
  have hidx : pre.length + i - pre.length = i := by omega
  rw [hidx]

theorem getD_append_left_lt (l1 l2 : List Nat) (i : Nat) (h : i < l1.length) :
    (l1 ++ l2).getD i 0 = l1.getD i 0 := by
  rw [List.getD_eq_getElem?_getD, List.getD_eq_getElem?_getD,
    List.getElem?_append_left h]

theorem getD_mid (pre mid post : List Nat) (i : Nat) (h : i < mid.length) :
    (pre ++ mid ++ post).getD (pre.length + i) 0 = mid.getD i 0 := by
  rw [List.append_assoc, getD_append_right_add, getD_append_left_lt _ _ _ h]


theorem posIn_window (pre mid post : List Nat) (u a b : Nat) (hb : b ≤ mid.length) :
    posIn (pre ++ mid ++ post) u (pre.length + a) (pre.length + b) =
      (posIn mid u a b).map (fun q => pre.length + q) := by
  have hlen : (pre ++ mid ++ post).length =
      pre.length + (mid.length + post.length) := by
    simp [List.length_append]
  unfold posIn
  rw [hlen, List.range_add, List.range_add, List.map_append, List.map_map,
    List.filter_append, List.filter_append, List.filter_map, List.filter_map]
  have e1 : (List.range pre.length).filter
      (fun q => decide (pre.length + a ≤ q) && decide (q < pre.length + b) &&
        ((pre ++ mid ++ post).getD q 0 == u)) = [] := by
    rw [List.filter_eq_nil_iff]
    intro q hq
    simp only [List.mem_range] at hq
    rw [decide_eq_false (by omega : ¬pre.length + a ≤ q), Bool.false_and,
      Bool.false_and]
    simp
  have e3 : (List.range post.length).filter
      ((fun q => decide (pre.length + a ≤ q) && decide (q < pre.length + b) &&
        ((pre ++ mid ++ post).getD q 0 == u)) ∘
        ((fun x => pre.length + x) ∘ fun x => mid.length + x)) = [] := by
    rw [List.filter_eq_nil_iff]
    intro j hj
    show (decide (pre.length + a ≤ pre.length + (mid.length + j)) &&
      decide (pre.length + (mid.length + j) < pre.length + b) &&
      ((pre ++ mid ++ post).getD (pre.length + (mid.length + j)) 0 == u)) ≠ true
    rw [decide_eq_false (by omega : ¬pre.length + (mid.length + j) < pre.length + b),
      Bool.and_false, Bool.false_and]
    simp
  have e2 : (List.range mid.length).filter
      ((fun q => decide (pre.length + a ≤ q) && decide (q < pre.length + b) &&
        ((pre ++ mid ++ post).getD q 0 == u)) ∘ fun x => pre.length + x) =
      (List.range mid.length).filter
        (fun q => decide (a ≤ q) && decide (q < b) && (mid.getD q 0 == u)) := by
    apply List.filter_congr
    intro i hi
    simp only [List.mem_range] at hi
    show (decide (pre.length + a ≤ pre.length + i) &&
      decide (pre.length + i < pre.length + b) &&
      ((pre ++ mid ++ post).getD (pre.length + i) 0 == u)) = _
    rw [getD_mid pre mid post i hi,
      decide_eq_decide.mpr (by omega : (pre.length + a ≤ pre.length + i) ↔ a ≤ i),
      decide_eq_decide.mpr (by omega : (pre.length + i < pre.length + b) ↔ i < b)]
  rw [e1, e3, e2]
  simp

theorem childPosR_shift (pre mid post : List Nat) (v u c : Nat) (hc : c < mid.length)
    (hpost : ∀ x, post.head? = some x → x ≤ v) :
    childPosR (pre ++ mid ++ post) v u (pre.length + c) =
      (childPosR mid v u c).map (fun q => pre.length + q) := by
  have hlen : (pre ++ mid ++ post).length =
      pre.length + mid.length + post.length := by
    simp [List.length_append]
    omega
  obtain ⟨s1, s2, s3, s4⟩ := nextLEval_spec mid v (c + 1) (by omega)
  have huntil : nextLEval (pre ++ mid ++ post) v (pre.length + c + 1) =
      pre.length + nextLEval mid v (c + 1) := by
    refine nextLEval_unique (pre ++ mid ++ post) v (pre.length + c + 1)
      (pre.length + nextLEval mid v (c + 1)) (by omega) (by omega) (by omega) ?_ ?_
    · intro q hq1 hq2
      have hj : q = pre.length + (q - pre.length) := by omega
      have hjlt : q - pre.length < mid.length := by omega
      rw [hj, getD_mid pre mid post _ hjlt]
      exact s3 _ (by omega) (by omega)
    · intro hlt
      by_cases hcase : nextLEval mid v (c + 1) < mid.length
      · rw [getD_mid pre mid post _ hcase]
        exact s4 hcase
      · have heq : nextLEval mid v (c + 1) = mid.length := by omega
        have hpost_ne : post ≠ [] := by
          intro hnil
          subst hnil
          rw [hlen] at hlt
          simp at hlt
          omega
        obtain ⟨x, post', hx⟩ := List.exists_cons_of_ne_nil hpost_ne
        have hgd : (pre ++ mid ++ post).getD
            (pre.length + nextLEval mid v (c + 1)) 0 = x := by
          rw [heq, show pre.length + mid.length = (pre ++ mid).length + 0 by
            simp [List.length_append]]
          rw [getD_append_right_add (pre ++ mid) post 0, hx]
          rfl
        rw [hgd]
        apply hpost
        rw [hx]
        rfl
  show posIn (pre ++ mid ++ post) u (pre.length + c)
      (nextLEval (pre ++ mid ++ post) v (pre.length + c + 1)) = _
  rw [huntil, posIn_window pre mid post u c (nextLEval mid v (c + 1)) s2]
  rfl

theorem childPosR_zero (s0 : Nat) (tl : List Nat) (t u : Nat)
    (htail : ∀ x ∈ tl, ¬(x ≤ t)) :
    childPosR (s0 :: tl) t u 0 = occ (s0 :: tl) u := by
  have hnext : nextLEval (s0 :: tl) t 1 = (s0 :: tl).length := by
    apply nextLEval_unique _ _ _ _ (by simp) (by simp) (le_refl _)
    · intro q hq1 hq2
      have hq : q = (q - 1) + 1 := by omega
      rw [hq, List.getD_cons_succ]
      apply htail
      apply getD_mem_of_lt
      simp at hq2 ⊢
      omega
    · intro h
      omega
  show posIn (s0 :: tl) u 0 (nextLEval (s0 :: tl) t 1) = _
  rw [hnext]
  rfl

theorem IsDFS.head_eq {k : Nat} {l : List Nat} (h : IsDFS k l) : ∃ l', l = k :: l' := by
  cases h
  · exact ⟨[], rfl⟩
  · exact ⟨_, rfl⟩

theorem IsDFS.mem_ge {k : Nat} {l : List Nat} (h : IsDFS k l) : ∀ x ∈ l, k ≤ x := by
  induction h with
  | leaf =>
    intro x hx
    simp at hx
    omega
  | node k ls hk hmem ih =>
    intro x hx
    rcases List.mem_cons.mp hx with rfl | hx
    · exact le_refl _
    · obtain ⟨li, hli, hxli⟩ := List.mem_flatten.mp hx
      have := ih li hli x hxli
      omega

theorem isdfs_tail_gt {k : Nat} {tl : List Nat} (h : IsDFS k (k :: tl)) :
    ∀ x ∈ tl, k < x := by
  cases h with
  | leaf =>
    intro x hx
    simp at hx
  | node _ ls hk hmem =>
    intro x hx
    obtain ⟨li, hli, hxli⟩ := List.mem_flatten.mp hx
    have := (hmem li hli).mem_ge x hxli
    omega

theorem flatten_head_isdfs {k : Nat} {ls : List (List Nat)}
    (h : ∀ l ∈ ls, IsDFS (k + 1) l) :
    ∀ x, ls.flatten.head? = some x → x = k + 1 := by
  cases ls with
  | nil => simp
  | cons l0 rest =>
    intro x hx
    rw [List.flatten_cons, List.head?_append] at hx
    obtain ⟨l', hl'⟩ := (h l0 (by simp)).head_eq
    rw [hl'] at hx
    simp at hx
    omega

theorem flatten_index_split (ls : List (List Nat)) (q : Nat)
    (h : q < ls.flatten.length) :
    ∃ ls1 l ls2 j, ls = ls1 ++ l :: ls2 ∧ j < l.length ∧
      q = ls1.flatten.length + j := by
  induction ls generalizing q with
  | nil => simp at h
  | cons l0 rest ih =>
    rw [List.flatten_cons, List.length_append] at h
    by_cases hq : q < l0.length
    · exact ⟨[], l0, rest, q, rfl, hq, by simp⟩
    · obtain ⟨ls1, l, ls2, j, h1, h2, h3⟩ := ih (q - l0.length) (by omega)
      refine ⟨l0 :: ls1, l, ls2, j, by rw [h1, List.cons_append], h2, ?_⟩
      rw [List.flatten_cons, List.length_append]
      omega

theorem isdfs_split {k : Nat} {ks : List Nat} (h : IsDFS k ks) :
    ∀ p t, p < ks.length → ks.getD p 0 = t →
      ∃ pre mid post, ks = pre ++ mid ++ post ∧ pre.length = p ∧ IsDFS t mid ∧
        (∀ x, post.head? = some x → x ≤ t) := by
  induction h with
  | leaf =>
    intro p t hp ht
    have hp0 : p = 0 := by simp at hp; omega
    subst hp0
    have ht5 : t = 5 := by simpa using ht.symm
    subst ht5
    exact ⟨[], [5], [], by simp, rfl, IsDFS.leaf, by simp⟩
  | node k ls hk hmem ih =>
    intro p t hp ht
    match p, hp, ht with
    | 0, hp, ht =>
      have htk : t = k := by simpa using ht.symm
      subst htk
      exact ⟨[], t :: ls.flatten, [], by simp, rfl, IsDFS.node t ls hk hmem, by simp⟩
    | q + 1, hp, ht =>
      have hq : q < ls.flatten.length := by
        simp only [List.length_cons] at hp
        omega
      obtain ⟨ls1, l, ls2, j, hdec, hjl, hqe⟩ := flatten_index_split ls q hq
      have hlmem : l ∈ ls := by
        rw [hdec]
        simp
      have hgd : l.getD j 0 = t := by
      
        have h1 : (k :: ls.flatten).getD (q + 1) 0 = ls.flatten.getD q 0 :=
          List.getD_cons_succ
        have h2 : ls.flatten = ls1.flatten ++ l ++ ls2.flatten := by
          rw [hdec, List.flatten_append, List.flatten_cons, List.append_assoc]
        have h3 : ls.flatten.getD q 0 = l.getD j 0 := by
          rw [h2, hqe]
          exact getD_mid ls1.flatten l ls2.flatten j hjl
        rw [← h3, ← h1, ht]
      obtain ⟨pre', mid, post', hdec2, hlen2, hdfs, hpost'⟩ := ih l hlmem j t hjl hgd
      refine ⟨k :: ls1.flatten ++ pre', mid, post' ++ ls2.flatten, ?_, ?_, hdfs, ?_⟩
      · have h2 : ls.flatten = ls1.flatten ++ l ++ ls2.flatten := by
          rw [hdec, List.flatten_append, List.flatten_cons, List.append_assoc]
        rw [h2, hdec2]
        simp [List.append_assoc]
      · simp [hlen2, hqe]
      · intro x hx
        rw [List.head?_append] at hx
        cases hh : post'.head? with
        | some y =>
          rw [hh] at hx
          simp at hx
          subst hx
          exact hpost' _ hh
        | none =>
          rw [hh] at hx
          simp at hx
          have hmem2 : ∀ l2 ∈ ls2, IsDFS (k + 1) l2 := by
            intro l2 hl2
            apply hmem
            rw [hdec]
            simp [hl2]
          have hxk := flatten_head_isdfs hmem2 x hx
          have htk : k + 1 ≤ t := by
            have := (hmem l hlmem).mem_ge (l.getD j 0) (getD_mem_of_lt hjl)
            omega
          omega

theorem occ_cons (a : Nat) (tl : List Nat) (u : Nat) :
    occ (a :: tl) u = (if a = u then [0] else []) ++ (occ tl u).map (fun q => 1 + q) := by
  unfold occ posIn
  have h1 : (a :: tl).length = 1 + tl.length := by
    simp [List.length_cons, Nat.add_comm]
  have hr1 : List.range 1 = [0] := by decide
  rw [h1, List.range_add, List.filter_append, List.filter_map, hr1]
  have h0 : 0 < 1 + tl.length := by omega
  congr 1
  · by_cases hau : a = u
    · subst hau
      simp [h0]
    · simp [hau]
  · apply congrArg
    apply List.filter_congr
    intro q hq
    rw [List.mem_range] at hq
    have hgd : (a :: tl).getD (1 + q) 0 = tl.getD q 0 := by
      rw [Nat.add_comm, List.getD_cons_succ]
    show (decide (0 ≤ 1 + q) && decide (1 + q < 1 + tl.length) &&
      ((a :: tl).getD (1 + q) 0 == u)) = (decide (0 ≤ q) && decide (q < tl.length) &&
      (tl.getD q 0 == u))
    rw [hgd,
      decide_eq_decide.mpr (by omega : (0 ≤ 1 + q) ↔ 0 ≤ q),
      decide_eq_decide.mpr (by omega : (1 + q < 1 + tl.length) ↔ q < tl.length)]

theorem occ_eq_nil_of (tl : List Nat) (u : Nat) (h : ∀ x ∈ tl, x ≠ u) :
    occ tl u = [] := by
  rw [List.eq_nil_iff_forall_not_mem]
  intro c hc
  rw [mem_occ] at hc
  exact h _ (getD_mem_of_lt hc.1) hc.2

theorem occ_append (l1 l2 : List Nat) (u : Nat) :
    occ (l1 ++ l2) u = occ l1 u ++ (occ l2 u).map (fun q => l1.length + q) := by
  unfold occ posIn
  rw [List.length_append, List.range_add, List.filter_append, List.filter_map]
  congr 1
  · apply List.filter_congr
    intro q hq
    rw [List.mem_range] at hq
    have hlt : q < l1.length + l2.length := by omega
    have hgd : (l1 ++ l2).getD q 0 = l1.getD q 0 := getD_append_left_lt l1 l2 q hq
    simp only [hgd]
    simp [hq, hlt]
  · apply congrArg
    apply List.filter_congr
    intro q hq
    rw [List.mem_range] at hq
    have hgd := getD_append_right_add l1 l2 q
    show (decide (0 ≤ l1.length + q) && decide (l1.length + q < l1.length + l2.length) &&
      ((l1 ++ l2).getD (l1.length + q) 0 == u)) =
      (decide (0 ≤ q) && decide (q < l2.length) && (l2.getD q 0 == u))
    rw [hgd,
      decide_eq_decide.mpr (by omega : (0 ≤ l1.length + q) ↔ 0 ≤ q),
      decide_eq_decide.mpr
        (by omega : (l1.length + q < l1.length + l2.length) ↔ q < l2.length)]

theorem flatten_head_all {w : Nat} {ls : List (List Nat)}
    (h : ∀ l ∈ ls, IsDFS w l) :
    ∀ x, ls.flatten.head? = some x → x = w := by
  cases ls with
  | nil => simp
  | cons l0 rest =>
    intro x hx
    rw [List.flatten_cons, List.head?_append] at hx
    obtain ⟨l', hl'⟩ := (h l0 (by simp)).head_eq
    rw [hl'] at hx
    simp at hx
    omega

theorem flatMap_congr_mem {α β : Type} {l : List α} {f g : α → List β}
    (h : ∀ x ∈ l, f x = g x) : l.flatMap f = l.flatMap g := by
  induction l with
  | nil => rfl
  | cons a tl ih =>
    rw [List.flatMap_cons, List.flatMap_cons, h a (by simp),
      ih (fun x hx => h x (by simp [hx]))]

theorem flatMap_map_shift (X : List Nat) (n : Nat) (F G : Nat → List Nat)
    (h : ∀ c ∈ X, F (n + c) = (G c).map (fun q => n + q)) :
    (X.map (fun q => n + q)).flatMap F = (X.flatMap G).map (fun q => n + q) := by
  induction X with
  | nil => rfl
  | cons c tl ih =>
    rw [List.map_cons, List.flatMap_cons, List.flatMap_cons, List.map_append,
      h c (by simp), ih (fun x hx => h x (by simp [hx]))]

theorem occ_flatten_parts (w v u : Nat) (hwv : w ≤ v) (hvu : v < u) :
    ∀ ls : List (List Nat),
      (∀ l ∈ ls, IsDFS w l) →
      (∀ l ∈ ls, w < v → occ l u = (occ l v).flatMap (childPosR l v u)) →
      occ ls.flatten u = (occ ls.flatten v).flatMap (childPosR ls.flatten v u) := by
  intro ls
  induction ls with
  | nil =>
    intro _ _
    simp [occ, posIn]
  | cons l0 rest ih =>
    intro hdfs hrec
    have hIsl0 := hdfs l0 (by simp)
    obtain ⟨tl0, htl0⟩ := hIsl0.head_eq
    have hRhead : ∀ x, rest.flatten.head? = some x → x ≤ v := by
      intro x hx
      have := flatten_head_all (fun l hl => hdfs l (by simp [hl])) x hx
      omega
    have htree : occ l0 u = (occ l0 v).flatMap (childPosR l0 v u) := by
      rcases Nat.lt_or_ge w v with hlt | hge
      · exact hrec l0 (by simp) hlt
      · have hwv' : w = v := by omega
        subst hwv'
        have htail : ∀ x ∈ tl0, w < x := isdfs_tail_gt (htl0 ▸ hIsl0)
        have hocc : occ l0 w = [0] := by
          rw [htl0, occ_cons, if_pos rfl, occ_eq_nil_of]
          · simp
          · intro x hx
            have := htail x hx
            omega
        rw [hocc]
        simp only [List.flatMap_cons, List.flatMap_nil, List.append_nil]
        rw [htl0]
        exact (childPosR_zero w tl0 w u (fun x hx => by
          have := htail x hx
          omega)).symm
    have hshift1 : ∀ c ∈ occ l0 v,
        childPosR (l0 ++ rest.flatten) v u c = childPosR l0 v u c := by
      intro c hc
      rw [mem_occ] at hc
      have h := childPosR_shift [] l0 rest.flatten v u c hc.1 hRhead
      simpa using h
    have hshift2 : ∀ c ∈ occ rest.flatten v,
        childPosR (l0 ++ rest.flatten) v u (l0.length + c) =
          (childPosR rest.flatten v u c).map (fun q => l0.length + q) := by
      intro c hc
      rw [mem_occ] at hc
      have h := childPosR_shift l0 rest.flatten [] v u c hc.1 (by
        intro x hx
        simp at hx)
      rw [List.append_nil] at h
      exact h
    have ihR := ih (fun l hl => hdfs l (by simp [hl]))
      (fun l hl hw => hrec l (by simp [hl]) hw)
    rw [List.flatten_cons, occ_append, occ_append, List.flatMap_append]
    congr 1
    · exact htree.trans (flatMap_congr_mem hshift1).symm
    · rw [flatMap_map_shift (occ rest.flatten v) l0.length
        (childPosR (l0 ++ rest.flatten) v u) (childPosR rest.flatten v u) hshift2,
        ← ihR]

theorem occ_flatten_core {k : Nat} {S : List Nat} (h : IsDFS k S) :
    ∀ v u, k < v → v < u →
      occ S u = (occ S v).flatMap (childPosR S v u) := by
  induction h with
  | leaf =>
    intro v u hv hu
    have h1 : occ [5] u = [] := occ_eq_nil_of _ _ (by
      intro x hx
      simp at hx
      omega)
    have h2 : occ [5] v = [] := occ_eq_nil_of _ _ (by
      intro x hx
      simp at hx
      omega)
    rw [h1, h2]
    rfl
  | node k ls hk hmem ih =>
    intro v u hv hu
    have hparts := occ_flatten_parts (k + 1) v u (by omega) hu ls hmem
      (fun l hl hw => ih l hl v u hw hu)
    have hsh : ∀ c ∈ occ ls.flatten v,
        childPosR (k :: ls.flatten) v u (1 + c) =
          (childPosR ls.flatten v u c).map (fun q => 1 + q) := by
      intro c hc
      rw [mem_occ] at hc
      have h := childPosR_shift [k] ls.flatten [] v u c hc.1 (by
        intro x hx
        simp at hx)
      rw [List.append_nil] at h
      simpa using h
    rw [occ_cons, if_neg (by omega), occ_cons, if_neg (by omega)]
    simp only [List.nil_append]
    rw [flatMap_map_shift (occ ls.flatten v) 1
      (childPosR (k :: ls.flatten) v u) (childPosR ls.flatten v u) hsh, ← hparts]

theorem childPos_one_step {k : Nat} {ks : List Nat} (h : IsDFS k ks)
    (p t v u : Nat) (hp : p < ks.length) (ht : ks.getD p 0 = t)
    (htv : t < v) (hvu : v < u) :
    childPosR ks t u p = (childPosR ks t v p).flatMap (childPosR ks v u) := by
  obtain ⟨pre, mid, post, hdec, hlen, hdfs, hpost⟩ := isdfs_split h p t hp ht
  obtain ⟨tl, htl⟩ := hdfs.head_eq
  have htail : ∀ x ∈ tl, t < x := isdfs_tail_gt (htl ▸ hdfs)
  have hmidlen : 0 < mid.length := by
    rw [htl]
    simp
  have hz : childPosR mid t u 0 = occ mid u := by
    rw [htl]
    exact childPosR_zero t tl t u (fun x hx => by
      have := htail x hx
      omega)
  have hzv : childPosR mid t v 0 = occ mid v := by
    rw [htl]
    exact childPosR_zero t tl t v (fun x hx => by
      have := htail x hx
      omega)
  have hL : childPosR ks t u p = (occ mid u).map (fun q => p + q) := by
    have h1 := childPosR_shift pre mid post t u 0 hmidlen hpost
    rw [← hdec, hlen, hz] at h1
    simpa using h1
  have hLv : childPosR ks t v p = (occ mid v).map (fun q => p + q) := by
    have h1 := childPosR_shift pre mid post t v 0 hmidlen (fun x hx => hpost x hx)
    rw [← hdec, hlen, hzv] at h1
    simpa using h1
  have hsh : ∀ c ∈ occ mid v,
      childPosR ks v u (p + c) = (childPosR mid v u c).map (fun q => p + q) := by
    intro c hc
    rw [mem_occ] at hc
    have h1 := childPosR_shift pre mid post v u c hc.1 (fun x hx => by
      have := hpost x hx
      omega)
    rw [← hdec, hlen] at h1
    exact h1
  have core := occ_flatten_core hdfs v u htv hvu
  rw [hL, hLv, flatMap_map_shift (occ mid v) p (childPosR ks v u)
    (childPosR mid v u) hsh, ← core]

theorem kind_rank_inj : ∀ k1 k2 : Kind, k1.rank = k2.rank → k1 = k2 := by
  intro k1 k2
  cases k1 <;> cases k2 <;> decide

theorem notChildTest_rank : ∀ t k : Kind, notChildTest t k = decide (k.rank ≤ t.rank) := by
  intro t k
  cases t <;> cases k <;> decide

theorem rkOf_length (idx : Index) : (rkOf idx).length = idx.obj.length := by
  simp [rkOf]

theorem rkOf_getD (idx : Index) (q : Nat) (h : q < idx.obj.length) :
    ∃ k, kindAt idx q = some k ∧ (rkOf idx).getD q 0 = k.rank := by
  refine ⟨(idx.obj.get ⟨q, h⟩).kind, ?_, ?_⟩
  · unfold kindAt
    rw [List.get?_eq_get h]
    rfl
  · unfold rkOf
    rw [List.getD_eq_getElem?_getD, List.getElem?_map, List.getElem?_eq_getElem h]
    simp [List.get_eq_getElem]

theorem until_eq_nextLEval (idx : Index) (t : Kind) (i : Nat) :
    (match bmNext (typeNotChildBitmap idx t) i with
      | some n => n
      | none => idx.obj.length) = nextLEval (rkOf idx) t.rank i := by
  have hb : typeNotChildBitmap idx t =
      bmOfPred (rkOf idx).length (fun q => decide ((rkOf idx).getD q 0 ≤ t.rank)) := by
    unfold typeNotChildBitmap bmOfPred
    rw [rkOf_length]
    apply List.filter_congr
    intro q hq
    rw [List.mem_range] at hq
    obtain ⟨k, hk, hr⟩ := rkOf_getD idx q hq
    rw [hk]
    show notChildTest t k = decide ((rkOf idx).getD q 0 ≤ t.rank)
    rw [hr, notChildTest_rank]
  unfold nextLEval
  rw [hb, rkOf_length]

theorem childSeq_eq_childPosR (idx : Index) (t u : Kind) (p : Nat) :
    childSeq idx none t u p = childPosR (rkOf idx) t.rank u.rank p := by
  unfold childSeq
  rw [until_eq_nextLEval]
  show bmRangeBetween (applyFilter none (typeBitmap idx u)) p
      (nextLEval (rkOf idx) t.rank (p + 1)) =
    childPosR (rkOf idx) t.rank u.rank p
  unfold childPosR posIn bmRangeBetween applyFilter typeBitmap bmOfPred
  rw [List.filter_filter, rkOf_length]
  apply List.filter_congr
  intro q hq
  rw [List.mem_range] at hq
  have hbeq : (kindAt idx q == some u) = ((rkOf idx).getD q 0 == u.rank) := by
    obtain ⟨k, hk, hr⟩ := rkOf_getD idx q hq
    rw [hk, hr]
    by_cases hku : k = u
    · subst hku
      simp
    · have hrr : k.rank ≠ u.rank := fun h => hku (kind_rank_inj k u h)
      rw [beq_eq_false_iff_ne.mpr (by simpa using hku), beq_eq_false_iff_ne.mpr hrr]
  rw [hbeq, Bool.and_comm]

theorem all5_flatten (l : List Nat) (h : ∀ x ∈ l, x = 5) :
    ∃ ls : List (List Nat), l = ls.flatten ∧ ∀ m ∈ ls, IsDFS 5 m := by
  induction l with
  | nil => exact ⟨[], rfl, by simp⟩
  | cons a tl ih =>
    obtain ⟨ls, h1, h2⟩ := ih (fun x hx => h x (by simp [hx]))
    have ha : a = 5 := h a (by simp)
    subst ha
    refine ⟨[5] :: ls, ?_, ?_⟩
    · rw [List.flatten_cons, h1]
      rfl
    · intro m hm
      rcases List.mem_cons.mp hm with rfl | hm
      · exact IsDFS.leaf
      · exact h2 m hm

theorem map_rank_flatMap {α : Type} (f : α → List Obj) (l : List α) :
    ((l.flatMap f).map (fun o => o.kind.rank)) =
      (l.map (fun x => (f x).map (fun o => o.kind.rank))).flatten := by
  induction l with
  | nil => rfl
  | cons x tl ih =>
    rw [List.flatMap_cons, List.map_append, List.map_cons, List.flatten_cons, ih]

theorem isdfs_activity (a : SActivity) :
    IsDFS 4 ((objsOfActivity a).map (fun o => o.kind.rank)) := by
  unfold objsOfActivity
  rw [List.map_cons]
  have h5 : ∀ x ∈ (a.days.enum.flatMap
      (fun pr => pr.2.map (fun _ => Obj.time ⟨pr.1⟩))).map (fun o => o.kind.rank),
      x = 5 := by
    intro x hx
    rw [List.mem_map] at hx
    obtain ⟨o, ho, hx⟩ := hx
    rw [List.mem_flatMap] at ho
    obtain ⟨pr, hpr, ho⟩ := ho
    rw [List.mem_map] at ho
    obtain ⟨w, hw, ho⟩ := ho
    subst ho
    subst hx
    rfl
  obtain ⟨ls, hflat, hdfs⟩ := all5_flatten _ h5
  rw [hflat]
  exact IsDFS.node 4 ls (by omega) hdfs

theorem isdfs_schedule (s : SSchedule) :
    IsDFS 3 ((objsOfSchedule s).map (fun o => o.kind.rank)) := by
  unfold objsOfSchedule
  rw [List.map_cons, map_rank_flatMap]
  refine IsDFS.node 3 _ (by omega) ?_
  intro l hl
  rw [List.mem_map] at hl
  obtain ⟨act, hact, hl⟩ := hl
  rw [← hl]
  exact isdfs_activity act

theorem isdfs_group (g : SGroup) :
    IsDFS 2 ((objsOfGroup g).map (fun o => o.kind.rank)) := by
  unfold objsOfGroup
  rw [List.map_cons, map_rank_flatMap]
  refine IsDFS.node 2 _ (by omega) ?_
  intro l hl
  rw [List.mem_map] at hl
  obtain ⟨s, hs, hl⟩ := hl
  rw [← hl]
  exact isdfs_schedule s

theorem isdfs_facility (f : SFacility) :
    IsDFS 1 ((objsOfFacility f).map (fun o => o.kind.rank)) := by
  unfold objsOfFacility
  rw [List.map_cons, map_rank_flatMap]
  refine IsDFS.node 1 _ (by omega) ?_
  intro l hl
  rw [List.mem_map] at hl
  obtain ⟨g, hg, hl⟩ := hl
  rw [← hl]
  exact isdfs_group g

theorem isdfs_build (d : SData) : IsDFS 0 (rkOf (buildIndex d)) := by
  unfold rkOf buildIndex objsOfData
  rw [List.map_cons, map_rank_flatMap]
  refine IsDFS.node 0 _ (by omega) ?_
  intro l hl
  rw [List.mem_map] at hl
  obtain ⟨f, hf, hl⟩ := hl
  rw [← hl]
  exact isdfs_facility f

theorem mem_childPosR_kindAt (idx : Index) (t u : Kind) (p q : Nat)
    (h : q ∈ childPosR (rkOf idx) t.rank u.rank p) : kindAt idx q = some u := by
  unfold childPosR at h
  rw [mem_posIn] at h
  obtain ⟨hlen, _, _, hgd⟩ := h
  rw [rkOf_length] at hlen
  obtain ⟨k, hk, hr⟩ := rkOf_getD idx q hlen
  rw [hk]
  exact congrArg some (kind_rank_inj k u (by rw [← hr, hgd]))

theorem kindAt_getD (idx : Index) (p : Nat) (k : Kind) (h : kindAt idx p = some k) :
    p < idx.obj.length ∧ (rkOf idx).getD p 0 = k.rank := by
  have hlt : p < idx.obj.length := by
    unfold kindAt at h
    cases hg : idx.obj.get? p with
    | none =>
      rw [hg] at h
      simp at h
    | some o =>
      obtain ⟨hh, _⟩ := List.get?_eq_some.mp hg
      exact hh
  obtain ⟨k', hk', hr⟩ := rkOf_getD idx p hlt
  rw [hk'] at h
  have hkk : k' = k := by
    injection h
  subst hkk
  exact ⟨hlt, hr⟩

theorem childSeq_one_step (d : SData) (t v u : Kind) (p : Nat)
    (hp : kindAt (buildIndex d) p = some t)
    (htv : t.rank < v.rank) (hvu : v.rank < u.rank) :
    childSeq (buildIndex d) none t u p =
      (childSeq (buildIndex d) none t v p).flatMap
        (childSeq (buildIndex d) none v u) := by
  obtain ⟨hlt, hgd⟩ := kindAt_getD (buildIndex d) p t hp
  rw [childSeq_eq_childPosR, childSeq_eq_childPosR]
  have hstep := childPos_one_step (isdfs_build d) p t.rank v.rank u.rank
    (by rw [rkOf_length]; exact hlt) hgd htv hvu
  rw [hstep]
  apply flatMap_congr_mem
  intro c hc
  rw [childSeq_eq_childPosR]

theorem mem_childSeq_kindAt (idx : Index) (t u : Kind) (p q : Nat)
    (h : q ∈ childSeq idx none t u p) : kindAt idx q = some u := by
  rw [childSeq_eq_childPosR] at h
  exact mem_childPosR_kindAt idx t u p q h

/-- C1: in an index built from a snapshot, iterating the kind-`u` children of a
kind-`t` node yields the same positions, in order and identity, as flattening
the traversal through any intermediate level `v` (first conjunct, for every
choice of skipped levels); consequently the full nested
Data→Facility→ScheduleGroup→Schedule→Activity→TimeRange traversal flattens to
`Data.Children(TimeRange)` (second conjunct). -/
theorem claim1 (d : SData) (t v u : Kind) (p : Nat)
    (hp : kindAt (buildIndex d) p = some t)
    (htv : t.rank < v.rank) (hvu : v.rank < u.rank) :
    childSeq (buildIndex d) none t u p =
      (childSeq (buildIndex d) none t v p).flatMap
        (childSeq (buildIndex d) none v u) ∧
    childSeq (buildIndex d) none .data .time 0 =
      (childSeq (buildIndex d) none .data .facility 0).flatMap (fun pf =>
        (childSeq (buildIndex d) none .facility .group pf).flatMap (fun pg =>
          (childSeq (buildIndex d) none .group .schedule pg).flatMap (fun ps =>
            (childSeq (buildIndex d) none .schedule .activity ps).flatMap
              (childSeq (buildIndex d) none .activity .time)))) := by
  constructor
  · exact childSeq_one_step d t v u p hp htv hvu
  · have hp0 : kindAt (buildIndex d) 0 = some .data := rfl
    have s1 := childSeq_one_step d .data .facility .time 0 hp0
      (by decide) (by decide)
    have s2 : ∀ pf, kindAt (buildIndex d) pf = some .facility →
        childSeq (buildIndex d) none .facility .time pf =
          (childSeq (buildIndex d) none .facility .group pf).flatMap
            (childSeq (buildIndex d) none .group .time) :=
      fun pf hpf => childSeq_one_step d .facility .group .time pf hpf
        (by decide) (by decide)
    have s3 : ∀ pg, kindAt (buildIndex d) pg = some .group →
        childSeq (buildIndex d) none .group .time pg =
          (childSeq (buildIndex d) none .group .schedule pg).flatMap
            (childSeq (buildIndex d) none .schedule .time) :=
      fun pg hpg => childSeq_one_step d .group .schedule .time pg hpg
        (by decide) (by decide)
    have s4 : ∀ ps, kindAt (buildIndex d) ps = some .schedule →
        childSeq (buildIndex d) none .schedule .time ps =
          (childSeq (buildIndex d) none .schedule .activity ps).flatMap
            (childSeq (buildIndex d) none .activity .time) :=
      fun ps hps => childSeq_one_step d .schedule .activity .time ps hps
        (by decide) (by decide)
    rw [s1]
    apply flatMap_congr_mem
    intro pf hpf
    rw [s2 pf (mem_childSeq_kindAt _ _ _ _ _ hpf)]
    apply flatMap_congr_mem
    intro pg hpg
    rw [s3 pg (mem_childSeq_kindAt _ _ _ _ _ hpg)]
    apply flatMap_congr_mem
    intro ps hps
    exact s4 ps (mem_childSeq_kindAt _ _ _ _ _ hps)

theorem claim1_witness :
    kindAt (buildIndex demoData) 0 = some Kind.data ∧
    childSeq (buildIndex demoData) none .data .time 0 =
      (childSeq (buildIndex demoData) none .data .group 0).flatMap
        (childSeq (buildIndex demoData) none .group .time) :=
  ⟨by rfl,
    (claim1 demoData .data .group .time 0 (by rfl) (by decide) (by decide)).1⟩

theorem yesNoLoop_eq (idx : Index) (sibs : List Nat) :
    ∀ y n : Bool, yesNoLoop idx sibs y n =
      (y || grpExplicitYes idx sibs, n || grpExplicitNo idx sibs) := by
  induction sibs with
  | nil =>
    intro y n
    simp [yesNoLoop, grpExplicitYes, grpExplicitNo]
  | cons p rest ih =>
    intro y n
    cases ha : actAt idx p with
    | none =>
      cases y <;> cases n <;>
        simp [yesNoLoop, grpExplicitYes, grpExplicitNo, ha, ih]
    | some a =>
      cases hr : a.hasResv <;> cases hv : a.resv <;> cases y <;> cases n <;>
        simp [yesNoLoop, grpExplicitYes, grpExplicitNo, ha, hr, hv, ih]

/-- C2: for every activity reference (with its containing group resolved the
way the code does, by the nearest preceding group bit), the uncached
`GuessReservationRequirement` returns exactly the spec's decision table,
first matching rule first, evaluated on the activity's explicit flag, the
group's no-reservation flag, link presence, and the presence of explicit
yes / no sibling activities. -/
theorem claim2 (idx : Index) (p g : Nat) (a : XActivity) (grp : XGroup)
    (ha : actAt idx p = some a)
    (hg : bmPrev (typeBitmap idx .group) p = some g)
    (hgrp : grpAt idx g = some grp) :
    guessRR idx p = some (specReservationTable
      (if a.hasResv then some a.resv else none)
      grp.noResv (!grp.links.isEmpty)
      (grpExplicitYes idx (childSeq idx none .group .activity g))
      (grpExplicitNo idx (childSeq idx none .group .activity g))) := by
  cases hres : a.hasResv <;>
    cases hnr : grp.noResv <;>
      cases h1 : grpExplicitYes idx (childSeq idx none .group .activity g) <;>
        cases h2 : grpExplicitNo idx (childSeq idx none .group .activity g) <;>
          simp [guessRR, ha, hg, hgrp, yesNoLoop_eq, hres, hnr, h1, h2,
            specReservationTable]

theorem claim2_witness :
    actAt (buildIndex demoData) 7 = some ⟨false, false⟩ ∧
    guessRR (buildIndex demoData) 7 =
      some (specReservationTable
        (if (XActivity.mk false false).hasResv then
          some (XActivity.mk false false).resv else none)
        (XGroup.mk false [()]).noResv (!(XGroup.mk false [()]).links.isEmpty)
        (grpExplicitYes (buildIndex demoData)
          (childSeq (buildIndex demoData) none .group .activity 3))
        (grpExplicitNo (buildIndex demoData)
          (childSeq (buildIndex demoData) none .group .activity 3))) :=
  ⟨by rfl,
    claim2 (buildIndex demoData) 7 3 ⟨false, false⟩ ⟨false, [()]⟩
      (by rfl) (by rfl) (by rfl)⟩

theorem toStep_amended (sd fr : Option GoTime) (x : PD) :
    toStep sd fr (some x) =
      (match amendedToFill sd fr x with
        | none => SideRes.abort
        | some t => SideRes.ok (some t)) := by
  cases hv : pdIsValid x with
  | false => simp [toStep, amendedToFill, hv]
  | true =>
    cases hm : x.month <;> cases hfr : fr <;> cases hy : x.year <;> cases hsd : sd <;>
      simp [toStep, amendedToFill, hv, hm, hfr, hy, hsd] <;>
        split <;> simp

/-- C3 (corrected): for a schedule range with a to side, the source fills the
to date as amended: the from month is inherited only when the from date is
present and the to year is absent or equal to the from date's year (otherwise
the side fails and `ok` is false); a missing to year takes the from date's
year (or, without a from date, the schedule date's year) rolled forward by
one exactly when the to month is strictly below that date's month; a missing
day becomes the last day of the month; the result is the start of the
following day minus one nanosecond, assembled with the order check. -/
theorem claim3 (sd fr : Option GoTime) (x : PD) :
    toStep sd fr (some x) =
      (match amendedToFill sd fr x with
        | none => SideRes.abort
        | some t => SideRes.ok (some t)) ∧
    ∀ r : PRange, r.toSide = some x → fromStep sd r.fromSide = .ok fr →
      computeEDR sd r =
        (match amendedToFill sd fr x with
          | none => (fr, none, false)
          | some t =>
            if goAfter fr (some t) then (fr, some t, false)
            else (fr, some t, true)) := by
  refine ⟨toStep_amended sd fr x, ?_⟩
  intro r hr hf
  unfold computeEDR
  rw [hr, hf]
  simp only [toStep_amended sd fr x]
  cases hA : amendedToFill sd fr x with
  | none => simp
  | some t => simp

theorem claim3_counterexample :
    computeEDR (some (timeDate 2025 6 15)) rC3 =
      (some ⟨2025, 3, 1, 0⟩, none, false) ∧
    claimToFill (some (timeDate 2025 6 15)) (some ⟨2025, 3, 1, 0⟩) xC3 =
      some ⟨2026, 3, 5, 86399999999999⟩ ∧
    (computeEDR (some (timeDate 2025 6 15)) rC3).2.1 ≠
      some ⟨2026, 3, 5, 86399999999999⟩ := by
  refine ⟨by decide, by decide, by decide⟩

theorem claim3_witness :
    rC3.toSide = some xC3 ∧
    fromStep (some (timeDate 2025 6 15)) rC3.fromSide =
      .ok (some ⟨2025, 3, 1, 0⟩) ∧
    computeEDR (some (timeDate 2025 6 15)) rC3 =
      (match amendedToFill (some (timeDate 2025 6 15)) (some ⟨2025, 3, 1, 0⟩) xC3 with
        | none => (some ⟨2025, 3, 1, 0⟩, none, false)
        | some t =>
          if goAfter (some ⟨2025, 3, 1, 0⟩) (some t)
          then (some ⟨2025, 3, 1, 0⟩, some t, false)
          else (some ⟨2025, 3, 1, 0⟩, some t, true)) :=
  ⟨by decide, by decide,
    (claim3 (some (timeDate 2025 6 15)) (some ⟨2025, 3, 1, 0⟩) xC3).2 rC3
      (by decide) (by decide)⟩

theorem goTime_eq_iff (a b : GoTime) :
    a = b ↔ (a.year = b.year ∧ a.month = b.month ∧ a.day = b.day ∧ a.nano = b.nano) := by
  cases a
  cases b
  simp

theorem goAfterT_iff (a b : GoTime) :
    goAfterT a b = true ↔
      (b.year < a.year ∨ (b.year = a.year ∧ (b.month < a.month ∨
        (b.month = a.month ∧ (b.day < a.day ∨ (b.day = a.day ∧ b.nano < a.nano)))))) := by
  unfold goAfterT
  by_cases h1 : a.year = b.year <;> by_cases h2 : a.month = b.month <;>
    by_cases h3 : a.day = b.day <;>
      simp [h1, h2, h3, bne] <;> omega

theorem rowGE_iff (a b : DRow) :
    rowGE a b = true ↔ ((a.updated = b.updated ∧ b.revision ≤ a.revision) ∨
      (a.updated ≠ b.updated ∧ goAfterT a.updated b.updated = true)) := by
  unfold rowGE
  by_cases h : a.updated = b.updated <;> simp [h]

theorem rowGE_refl (a : DRow) : rowGE a a = true := by
  simp [rowGE]

theorem rowGE_total (a b : DRow) (h : ¬ rowGE a b = true) : rowGE b a = true := by
  rw [rowGE_iff] at h
  rw [rowGE_iff]
  simp only [goAfterT_iff, goTime_eq_iff, ne_eq] at h ⊢
  omega

theorem rowGE_trans (a b c : DRow) (h1 : rowGE a b = true) (h2 : rowGE b c = true) :
    rowGE a c = true := by
  rw [rowGE_iff] at h1 h2
  rw [rowGE_iff]
  simp only [goAfterT_iff, goTime_eq_iff, ne_eq] at h1 h2 ⊢
  omega

theorem insertRowDesc_perm (r : DRow) (l : List DRow) :
    List.Perm (insertRowDesc r l) (r :: l) := by
  induction l with
  | nil => exact List.Perm.refl _
  | cons h t ih =>
    unfold insertRowDesc
    by_cases hge : rowGE r h = true
    · rw [if_pos hge]
    · rw [if_neg hge]
      exact (List.Perm.cons h ih).trans (List.Perm.swap r h t)

theorem sortRowsDesc_perm (l : List DRow) : List.Perm (sortRowsDesc l) l := by
  induction l with
  | nil => exact List.Perm.refl _
  | cons r rs ih =>
    have h1 := insertRowDesc_perm r (sortRowsDesc rs)
    exact h1.trans (List.Perm.cons r ih)

theorem sortRowsDesc_head_max (l : List DRow) :
    ∀ r0 rest, sortRowsDesc l = r0 :: rest → ∀ x ∈ l, rowGE r0 x = true := by
  induction l with
  | nil =>
    intro r0 rest h
    simp [sortRowsDesc] at h
  | cons r rs ih =>
    intro r0 rest h
    rw [show sortRowsDesc (r :: rs) = insertRowDesc r (sortRowsDesc rs) from rfl] at h
    cases hs : sortRowsDesc rs with
    | nil =>
      rw [hs] at h
      unfold insertRowDesc at h
      injection h with h1 h2
      have hrs : rs = [] := by
        have hp := sortRowsDesc_perm rs
        rw [hs] at hp
        exact (hp.symm).eq_nil
      subst hrs
      intro x hx
      simp at hx
      subst hx
      rw [← h1]
      exact rowGE_refl x
    | cons h0 t0 =>
      rw [hs] at h
      unfold insertRowDesc at h
      by_cases hge : rowGE r h0 = true
      · rw [if_pos hge] at h
        injection h with h1 h2
        intro x hx
        rw [← h1]
        rcases List.mem_cons.mp hx with rfl | hx
        · exact rowGE_refl x
        · exact rowGE_trans r h0 x hge (ih h0 t0 hs x hx)
      · rw [if_neg hge] at h
        injection h with h1 h2
        intro x hx
        rw [← h1]
        rcases List.mem_cons.mp hx with rfl | hx
        · exact rowGE_total x h0 hge
        · exact ih h0 t0 hs x hx

theorem digitVal_eq (d : Nat) (h : d ≤ 9) : digitVal (48 + d) = some d := by
  unfold digitVal
  rw [if_pos ⟨by omega, by omega⟩]
  congr 1
  omega

theorem specUpper_render_ym (y m : Nat) (hy : y ≤ 9999) (hm1 : 1 ≤ m)
    (hm2 : m ≤ 12) :
    specUpper (renderSpec (.ym y m)) = some (timeDate y (m + 1) 0) := by
  have h1 : digitVal (48 + y / 1000) = some (y / 1000) := digitVal_eq _ (by omega)
  have h2 : digitVal (48 + y / 100 % 10) = some (y / 100 % 10) := digitVal_eq _ (by omega)
  have h3 : digitVal (48 + y / 10 % 10) = some (y / 10 % 10) := digitVal_eq _ (by omega)
  have h4 : digitVal (48 + y % 10) = some (y % 10) := digitVal_eq _ (by omega)
  have h5 : digitVal (48 + m / 10) = some (m / 10) := digitVal_eq _ (by omega)
  have h6 : digitVal (48 + m % 10) = some (m % 10) := digitVal_eq _ (by omega)
  have e4 : ((y / 1000 * 10 + y / 100 % 10) * 10 + y / 10 % 10) * 10 + y % 10 = y := by
    omega
  have e2 : m / 10 * 10 + m % 10 = m := by omega
  simp [specUpper, renderSpec, render4, render2, parseYM, parse4, parse2, lit,
    h1, h2, h3, h4, h5, h6, e4, e2, hm1, hm2]

theorem specUpper_render_ymd (y m d : Nat) (hy : y ≤ 9999) (hm1 : 1 ≤ m)
    (hm2 : m ≤ 12) (hd1 : 1 ≤ d) (hd3 : d ≤ 31)
    (hd2 : (d : Int) ≤ daysInMonth y m) :
    specUpper (renderSpec (.ymd y m d)) = some (timeDate y m (d + 1)) := by
  have h1 : digitVal (48 + y / 1000) = some (y / 1000) := digitVal_eq _ (by omega)
  have h2 : digitVal (48 + y / 100 % 10) = some (y / 100 % 10) := digitVal_eq _ (by omega)
  have h3 : digitVal (48 + y / 10 % 10) = some (y / 10 % 10) := digitVal_eq _ (by omega)
  have h4 : digitVal (48 + y % 10) = some (y % 10) := digitVal_eq _ (by omega)
  have h5 : digitVal (48 + m / 10) = some (m / 10) := digitVal_eq _ (by omega)
  have h6 : digitVal (48 + m % 10) = some (m % 10) := digitVal_eq _ (by omega)
  have h7 : digitVal (48 + d / 10) = some (d / 10) := digitVal_eq _ (by omega)
  have h8 : digitVal (48 + d % 10) = some (d % 10) := digitVal_eq _ (by omega)
  have e4 : ((y / 1000 * 10 + y / 100 % 10) * 10 + y / 10 % 10) * 10 + y % 10 = y := by
    omega
  have e2 : m / 10 * 10 + m % 10 = m := by omega
  have e2d : d / 10 * 10 + d % 10 = d := by omega
  simp [specUpper, renderSpec, render4, render2, parseYMD, parse4, parse2, lit,
    h1, h2, h3, h4, h5, h6, h7, h8, e4, e2, e2d, hm1, hm2, hd1, hd2]

theorem specUpper_render_ymdhm (y m d hh mm : Nat) (hy : y ≤ 9999) (hm1 : 1 ≤ m)
    (hm2 : m ≤ 12) (hd1 : 1 ≤ d) (hd3 : d ≤ 31)
    (hd2 : (d : Int) ≤ daysInMonth y m)
    (hhh : hh ≤ 12) (hmm : mm ≤ 59) :
    specUpper (renderSpec (.ymdhm y m d hh mm)) =
      some (timeDateAt y m d (((hh * 60 + mm + 1) : Int) * 60000000000)) := by
  have h1 : digitVal (48 + y / 1000) = some (y / 1000) := digitVal_eq _ (by omega)
  have h2 : digitVal (48 + y / 100 % 10) = some (y / 100 % 10) := digitVal_eq _ (by omega)
  have h3 : digitVal (48 + y / 10 % 10) = some (y / 10 % 10) := digitVal_eq _ (by omega)
  have h4 : digitVal (48 + y % 10) = some (y % 10) := digitVal_eq _ (by omega)
  have h5 : digitVal (48 + m / 10) = some (m / 10) := digitVal_eq _ (by omega)
  have h6 : digitVal (48 + m % 10) = some (m % 10) := digitVal_eq _ (by omega)
  have h7 : digitVal (48 + d / 10) = some (d / 10) := digitVal_eq _ (by omega)
  have h8 : digitVal (48 + d % 10) = some (d % 10) := digitVal_eq _ (by omega)
  have h9 : digitVal (48 + hh / 10) = some (hh / 10) := digitVal_eq _ (by omega)
  have h10 : digitVal (48 + hh % 10) = some (hh % 10) := digitVal_eq _ (by omega)
  have h11 : digitVal (48 + mm / 10) = some (mm / 10) := digitVal_eq _ (by omega)
  have h12 : digitVal (48 + mm % 10) = some (mm % 10) := digitVal_eq _ (by omega)
  have e4 : ((y / 1000 * 10 + y / 100 % 10) * 10 + y / 10 % 10) * 10 + y % 10 = y := by
    omega
  have e2 : m / 10 * 10 + m % 10 = m := by omega
  have e2d : d / 10 * 10 + d % 10 = d := by omega
  have e2h : hh / 10 * 10 + hh % 10 = hh := by omega
  have e2m : mm / 10 * 10 + mm % 10 = mm := by omega
  simp [specUpper, renderSpec, render4, render2, parseYMDHM, parse4, parse2, lit,
    h1, h2, h3, h4, h5, h6, h7, h8, h9, h10, h11, h12, e4, e2, e2d, e2h, e2m,
    hm1, hm2, hd1, hd2, hhh, hmm]

theorem specUpper_render_ymdhms (y m d hh mm ss : Nat) (hy : y ≤ 9999) (hm1 : 1 ≤ m)
    (hm2 : m ≤ 12) (hd1 : 1 ≤ d) (hd3 : d ≤ 31)
    (hd2 : (d : Int) ≤ daysInMonth y m)
    (hhh : hh ≤ 12) (hmm : mm ≤ 59) (hss : ss ≤ 59) :
    specUpper (renderSpec (.ymdhms y m d hh mm ss)) =
      some (timeDateAt y m d ((((hh * 60 + mm) * 60 + ss + 1) : Int) * 1000000000)) := by
  have h1 : digitVal (48 + y / 1000) = some (y / 1000) := digitVal_eq _ (by omega)
  have h2 : digitVal (48 + y / 100 % 10) = some (y / 100 % 10) := digitVal_eq _ (by omega)
  have h3 : digitVal (48 + y / 10 % 10) = some (y / 10 % 10) := digitVal_eq _ (by omega)
  have h4 : digitVal (48 + y % 10) = some (y % 10) := digitVal_eq _ (by omega)
  have h5 : digitVal (48 + m / 10) = some (m / 10) := digitVal_eq _ (by omega)
  have h6 : digitVal (48 + m % 10) = some (m % 10) := digitVal_eq _ (by omega)
  have h7 : digitVal (48 + d / 10) = some (d / 10) := digitVal_eq _ (by omega)
  have h8 : digitVal (48 + d % 10) = some (d % 10) := digitVal_eq _ (by omega)
  have h9 : digitVal (48 + hh / 10) = some (hh / 10) := digitVal_eq _ (by omega)
  have h10 : digitVal (48 + hh % 10) = some (hh % 10) := digitVal_eq _ (by omega)
  have h11 : digitVal (48 + mm / 10) = some (mm / 10) := digitVal_eq _ (by omega)
  have h12 : digitVal (48 + mm % 10) = some (mm % 10) := digitVal_eq _ (by omega)
  have h13 : digitVal (48 + ss / 10) = some (ss / 10) := digitVal_eq _ (by omega)
  have h14 : digitVal (48 + ss % 10) = some (ss % 10) := digitVal_eq _ (by omega)
  have e4 : ((y / 1000 * 10 + y / 100 % 10) * 10 + y / 10 % 10) * 10 + y % 10 = y := by
    omega
  have e2 : m / 10 * 10 + m % 10 = m := by omega
  have e2d : d / 10 * 10 + d % 10 = d := by omega
  have e2h : hh / 10 * 10 + hh % 10 = hh := by omega
  have e2m : mm / 10 * 10 + mm % 10 = mm := by omega
  have e2s : ss / 10 * 10 + ss % 10 = ss := by omega
  simp [specUpper, renderSpec, render4, render2, parseYMDHMS, parseYMDHM,
    parse4, parse2, lit, h1, h2, h3, h4, h5, h6, h7, h8, h9, h10, h11, h12,
    h13, h14, e4, e2, e2d, e2h, e2m, e2s, hm1, hm2, hd1, hd2, hhh, hmm, hss]

theorem resolveVersion_render (rows : List DRow) (sp : DSpec) (h : sp.valid) :
    resolveVersion rows (renderSpec sp) =
      (match (sortRowsDesc (rows.filter
          (fun r => goBeforeT r.updated sp.upper))).head? with
        | some r => (r.id, some r.updated, true)
        | none => ([], none, true)) := by
  have hup : specUpper (renderSpec sp) = some sp.upper := by
    cases sp with
    | ym y m =>
      obtain ⟨hy, hm1, hm2⟩ := h
      exact specUpper_render_ym y m hy hm1 hm2
    | ymd y m d =>
      obtain ⟨hy, hm1, hm2, hd1, hd3, hd2⟩ := h
      exact specUpper_render_ymd y m d hy hm1 hm2 hd1 hd3 hd2
    | ymdhm y m d hh mm =>
      obtain ⟨hy, hm1, hm2, hd1, hd3, hd2, hhh, hmm⟩ := h
      exact specUpper_render_ymdhm y m d hh mm hy hm1 hm2 hd1 hd3 hd2 hhh hmm
    | ymdhms y m d hh mm ss =>
      obtain ⟨hy, hm1, hm2, hd1, hd3, hd2, hhh, hmm, hss⟩ := h
      exact specUpper_render_ymdhms y m d hh mm ss hy hm1 hm2 hd1 hd3 hd2 hhh hmm hss
  have hlen32 : ((renderSpec sp).length == 32) = false := by
    cases sp <;> rfl
  have hlatest : ((renderSpec sp).take 6 == [108, 97, 116, 101, 115, 116]) = false := by
    apply beq_eq_false_iff_ne.mpr
    cases sp with
    | ym y m =>
      intro hc
      rw [show (renderSpec (DSpec.ym y m)).take 6 =
        [48 + y / 1000, 48 + y / 100 % 10, 48 + y / 10 % 10, 48 + y % 10, 45,
          48 + m / 10] from rfl] at hc
      simp at hc
    | ymd y m d =>
      intro hc
      rw [show (renderSpec (DSpec.ymd y m d)).take 6 =
        [48 + y / 1000, 48 + y / 100 % 10, 48 + y / 10 % 10, 48 + y % 10, 45,
          48 + m / 10] from rfl] at hc
      simp at hc
    | ymdhm y m d hh mm =>
      intro hc
      rw [show (renderSpec (DSpec.ymdhm y m d hh mm)).take 6 =
        [48 + y / 1000, 48 + y / 100 % 10, 48 + y / 10 % 10, 48 + y % 10, 45,
          48 + m / 10] from rfl] at hc
      simp at hc
    | ymdhms y m d hh mm ss =>
      intro hc
      rw [show (renderSpec (DSpec.ymdhms y m d hh mm ss)).take 6 =
        [48 + y / 1000, 48 + y / 100 % 10, 48 + y / 10 % 10, 48 + y % 10, 45,
          48 + m / 10] from rfl] at hc
      simp at hc
  simp [resolveVersion, hlen32, hlatest, hup]

/-- C4 (corrected): for every well-formed spec string of the four date forms,
the resolver treats the spec as valid and returns the stored row with the
greatest (updated, revision) among the rows whose updated time is strictly
before the source's window bound — which for the YYYY-MM form is the start of
the month's last day (`Date(y, m+1, 0)`), not the end of that month's window —
and a valid spec with no matching row yields an empty id, zero time, and
spec_was_valid = true. -/
theorem claim4 (rows : List DRow) (sp : DSpec) (h : sp.valid) :
    (resolveVersion rows (renderSpec sp) =
      (match (sortRowsDesc (rows.filter
          (fun r => goBeforeT r.updated sp.upper))).head? with
        | some r => (r.id, some r.updated, true)
        | none => ([], none, true))) ∧
    (rows.filter (fun r => goBeforeT r.updated sp.upper) = [] →
      resolveVersion rows (renderSpec sp) = ([], none, true)) ∧
    ∀ r0 rest, sortRowsDesc (rows.filter (fun r => goBeforeT r.updated sp.upper)) =
        r0 :: rest →
      resolveVersion rows (renderSpec sp) = (r0.id, some r0.updated, true) ∧
      r0 ∈ rows ∧ goBeforeT r0.updated sp.upper = true ∧
      ∀ r ∈ rows, goBeforeT r.updated sp.upper = true → rowGE r0 r = true := by
  have hmain := resolveVersion_render rows sp h
  refine ⟨hmain, ?_, ?_⟩
  · intro hnil
    rw [hmain, hnil]
    rfl
  · intro r0 rest hs
    have hmem0 : r0 ∈ rows.filter (fun r => goBeforeT r.updated sp.upper) := by
      have hp := sortRowsDesc_perm (rows.filter (fun r => goBeforeT r.updated sp.upper))
      rw [hs] at hp
      exact hp.mem_iff.mp (by simp)
    rw [List.mem_filter] at hmem0
    refine ⟨?_, hmem0.1, hmem0.2, ?_⟩
    · rw [hmain, hs]
      rfl
    · intro r hr hbef
      exact sortRowsDesc_head_max _ r0 rest hs r (List.mem_filter.mpr ⟨hr, hbef⟩)

theorem claim4_counterexample :
    resolveVersion [rowC4] specC4 = ([], none, true) ∧
    goBeforeT rowC4.updated (timeDate 2025 10 1) = true ∧
    rowC4.id ≠ [] := by
  refine ⟨by decide, by decide, by decide⟩

theorem claim4_witness :
    (DSpec.ym 2025 9).valid ∧
    resolveVersion [rowC4] (renderSpec (DSpec.ym 2025 9)) =
      (match (sortRowsDesc ([rowC4].filter
          (fun r => goBeforeT r.updated (DSpec.ym 2025 9).upper))).head? with
        | some r => (r.id, some r.updated, true)
        | none => ([], none, true)) :=
  ⟨⟨by omega, by omega, by omega⟩,
    (claim4 [rowC4] (DSpec.ym 2025 9) ⟨by omega, by omega, by omega⟩).1⟩

theorem flatMap_esc_id (l : List Nat)
    (h : ∀ c ∈ l, (c == 34 || c == 13 || c == 10) = false) :
    l.flatMap escQuotedCSV = l := by
  induction l with
  | nil => rfl
  | cons a t ih =>
    have ha := h a (by simp)
    have h34 : (a == 34) = false := by
      cases hx : a == 34
      · rfl
      · rw [hx] at ha
        simp at ha
    have h10 : (a == 10) = false := by
      cases hx : a == 10
      · rfl
      · rw [hx] at ha
        simp at ha
    rw [List.flatMap_cons, ih (fun c hc => h c (by simp [hc]))]
    simp [escQuotedCSV, h34, h10]

theorem take_findIdx_not_spec (l : List Nat) :
    ∀ c ∈ l.take (l.findIdx (fun c => c == 34 || c == 13 || c == 10)),
      (c == 34 || c == 13 || c == 10) = false := by
  induction l with
  | nil => simp
  | cons a t ih =>
    rw [List.findIdx_cons]
    cases hf : (a == 34 || a == 13 || a == 10) with
    | true => simp [hf]
    | false =>
      simp only [hf, cond_false]
      rw [List.take_succ_cons]
      intro c hc
      rcases List.mem_cons.mp hc with rfl | hc
      · exact hf
      · exact ih c hc

theorem drop_findIdx_spec (l : List Nat) (c : Nat) (rest : List Nat)
    (h : l.drop (l.findIdx (fun c => c == 34 || c == 13 || c == 10)) = c :: rest) :
    (c == 34 || c == 13 || c == 10) = true := by
  induction l generalizing c rest with
  | nil => simp at h
  | cons a t ih =>
    rw [List.findIdx_cons] at h
    cases hf : (a == 34 || a == 13 || a == 10) with
    | true =>
      rw [hf, cond_true, List.drop_zero] at h
      injection h with h1 h2
      rw [← h1]
      exact hf
    | false =>
      rw [hf, cond_false, List.drop_succ_cons] at h
      exact ih c rest h

theorem drop_findIdx_nil (l : List Nat)
    (h : l.drop (l.findIdx (fun c => c == 34 || c == 13 || c == 10)) = []) :
    ∀ c ∈ l, (c == 34 || c == 13 || c == 10) = false := by
  induction l with
  | nil => simp
  | cons a t ih =>
    rw [List.findIdx_cons] at h
    cases hf : (a == 34 || a == 13 || a == 10) with
    | true =>
      rw [hf, cond_true, List.drop_zero] at h
      simp at h
    | false =>
      rw [hf, cond_false, List.drop_succ_cons] at h
      intro c hc
      rcases List.mem_cons.mp hc with rfl | hc
      · exact hf
      · exact ih h c hc

theorem stringInQuotes_flatMap (n : Nat) :
    ∀ s : List Nat, s.length ≤ n → stringInQuotesCSV s = s.flatMap escQuotedCSV := by
  induction n with
  | zero =>
    intro s hs
    have hnil : s = [] := by
      cases s
      · rfl
      · simp at hs
    subst hnil
    simp [stringInQuotesCSV]
  | succ n ih =>
    intro s hs
    cases s with
    | nil => simp [stringInQuotesCSV]
    | cons a t =>
      rw [stringInQuotesCSV.eq_def, dif_neg (by simp)]
      simp only []
      split
      all_goals rename_i h2
      · rw [List.append_nil,
          List.take_of_length_le (List.drop_eq_nil_iff.mp h2),
          flatMap_esc_id _ (drop_findIdx_nil _ h2)]
      · rename_i c rest
        have hlrest : rest.length ≤ n := by
          have hl := congrArg List.length h2
          rw [List.length_drop] at hl
          simp only [List.length_cons] at hl hs
          omega
        rw [ih rest hlrest]
        conv_rhs =>
          rw [← List.take_append_drop
            ((a :: t).findIdx (fun c => c == 34 || c == 13 || c == 10)) (a :: t), h2]
        rw [List.flatMap_append, List.flatMap_cons,
          flatMap_esc_id _ (take_findIdx_not_spec (a :: t))]

theorem fieldNeeds_eq_claim (s : List Nat) :
    fieldNeedsQuotesCSV s = claimQuoteCond s := by
  have hfun : ∀ c : Nat, (c == 10 || c == 13 || c == 34 || c == 44) =
      (c == 34 || c == 13 || c == 10 || c == 44) := by
    intro c
    cases h1 : c == 10 <;> cases h2 : c == 13 <;> cases h3 : c == 34 <;>
      cases h4 : c == 44 <;> rfl
  cases s with
  | nil => rfl
  | cons a t =>
    by_cases hdot : a :: t = [92, 46]
    · rw [hdot]
      decide
    · have hbeq : ((a :: t) == [92, 46]) = false := beq_eq_false_iff_ne.mpr hdot
      unfold fieldNeedsQuotesCSV claimQuoteCond
      rw [hbeq]
      simp only [hfun, List.isEmpty_cons, hbeq, Bool.false_eq_true, if_false]
      cases hany : (a :: t).any (fun c => c == 34 || c == 13 || c == 10 || c == 44) <;>
        simp [hany]

/-- C5: a string field written by the CSV exporter is wrapped in double quotes
iff it contains a double quote, carriage return, newline or comma byte, or its
first rune is whitespace, or it equals the two-byte string backslash-dot; and
inside a quoted field each byte is copied with every embedded double quote
doubled (and a bare LF normalized to CRLF). -/
theorem claim5 (s : List Nat) :
    fieldNeedsQuotesCSV s = claimQuoteCond s ∧
    stringInQuotesCSV s = s.flatMap escQuotedCSV ∧
    stringCSV s = (if claimQuoteCond s then
      [34] ++ s.flatMap escQuotedCSV ++ [34] else s) := by
  refine ⟨fieldNeeds_eq_claim s, stringInQuotes_flatMap s.length s (le_refl _), ?_⟩
  unfold stringCSV
  rw [fieldNeeds_eq_claim s, stringInQuotes_flatMap s.length s (le_refl _)]
  cases hq : claimQuoteCond s <;> simp [hq]

/-- C6 (code bug): the JSON string writer of the simple exporter is supposed
to escape U+2028 and continue after the full rune, but its `for i := range
len(s)` loop ignores the in-body index advance, so after escaping U+2028 it
re-reads the rune's two continuation bytes as invalid UTF-8 and emits two
spurious U+FFFD replacement escapes: the one-rune input U+2028 encodes to
the five-escape body u2028-ufffd-ufffd instead of u2028 alone. -/
theorem claim6 :
    appendStringJSON [] [226, 128, 168] =
      [34, 92, 117, 50, 48, 50, 56, 92, 117, 102, 102, 102, 100,
       92, 117, 102, 102, 102, 100, 34] ∧
    appendStringJSON [] [226, 128, 168] ≠
      [34, 92, 117, 50, 48, 50, 56, 34] := by
  refine ⟨by decide, by decide⟩

/-- C7 (corrected): a table with zero rows writes nothing at all — not even
the header row — while any table whose rows render successfully begins with
the header row of column names. -/
theorem claim7 (cols : List CsvCol) (rows : List (List FieldVal))
    (r0 : List FieldVal) (rest : List (List FieldVal)) (hr : rows = r0 :: rest)
    (hdr out : List Nat)
    (hh : writeRowCSV cols r0 true = some hdr)
    (hout : writeTableRowsCSV cols rows = some out) :
    writeTableRowsCSV cols [] = some [] ∧ ∃ tail, out = hdr ++ tail := by
  refine ⟨rfl, ?_⟩
  subst hr
  simp only [writeTableRowsCSV] at hout
  split at hout
  · rename_i cs hC
    injection hout with hout
    rw [show (r0 :: rest).enum = (0, r0) :: List.enumFrom 1 rest from rfl,
      List.mapM_cons] at hC
    cases hf : writeRowCSV cols r0 false with
    | none =>
      simp [hf] at hC
    | some body0 =>
      simp [hf, hh] at hC
      rw [Option.bind_eq_some] at hC
      obtain ⟨a, hX, hC2⟩ := hC
      injection hC2 with hC3
      refine ⟨body0 ++ a.flatten, ?_⟩
      rw [← hout, ← hC3]
      simp [List.append_assoc]
  · rename_i hC
    simp at hout

theorem claim7_counterexample :
    writeTableRowsCSV demoCols [] = some [] ∧
    ([] : List Nat) ≠ stringCSV [110, 97, 109, 101] ++ [13, 10] := by
  refine ⟨by decide, by decide⟩

theorem claim7_witness :
    writeRowCSV demoCols [FieldVal.str [97]] true =
      some (stringCSV [110, 97, 109, 101] ++ [13, 10]) ∧
    writeTableRowsCSV demoCols [[FieldVal.str [97]]] =
      some ((stringCSV [110, 97, 109, 101] ++ [13, 10]) ++ ([97] ++ [13, 10])) ∧
    (writeTableRowsCSV demoCols [] = some [] ∧
      ∃ tail, (stringCSV [110, 97, 109, 101] ++ [13, 10]) ++ ([97] ++ [13, 10]) =
        (stringCSV [110, 97, 109, 101] ++ [13, 10]) ++ tail) :=
  ⟨by decide, by decide,
    claim7 demoCols [[FieldVal.str [97]]] [FieldVal.str [97]] [] rfl
      (stringCSV [110, 97, 109, 101] ++ [13, 10])
      ((stringCSV [110, 97, 109, 101] ++ [13, 10]) ++ ([97] ++ [13, 10]))
      (by decide) (by decide)⟩

theorem importAll_get_prefix (vs : List Int) :
    ∀ rows i x, rows.get? i = some x → (importAll vs rows).get? i = some x := by
  induction vs with
  | nil =>
    intro rows i x h
    exact h
  | cons v vs ih =>
    intro rows i x h
    apply ih
    obtain ⟨hlt, _⟩ := List.get?_eq_some.mp h
    rw [List.get?_append hlt]
    exact h

theorem importAll_general (us : List Int) :
    ∀ rows : List (Int × Nat),
      (∀ w : Int, maxRevision rows w =
        ((rows.map Prod.fst).filter (fun x => x == w)).length) →
      ∀ k u, us.get? k = some u →
        (importAll us rows).get? (rows.length + k) =
          some (u, 1 + ((rows.map Prod.fst ++ us.take k).filter
            (fun x => x == u)).length) := by
  induction us with
  | nil =>
    intro rows H k u h
    simp at h
  | cons v vs ih =>
    intro rows H k u h
    have Hstep : ∀ w : Int, maxRevision (rows ++ [(v, 1 + maxRevision rows v)]) w =
        (((rows ++ [(v, 1 + maxRevision rows v)]).map Prod.fst).filter
          (fun x => x == w)).length := by
      intro w
      have hsplit : maxRevision (rows ++ [(v, 1 + maxRevision rows v)]) w =
          (if v == w then max (maxRevision rows w) (1 + maxRevision rows v)
           else maxRevision rows w) := by
        unfold maxRevision
        rw [List.foldl_append]
        rfl
      rw [hsplit, List.map_append, List.filter_append, List.length_append]
      by_cases hvw : v = w
      · subst hvw
        rw [if_pos (by simp), H v]
        simp
        omega
      · rw [if_neg (by simpa using hvw), H w]
        have hone : (([(v, 1 + maxRevision rows v)].map Prod.fst).filter
            (fun x => x == w)).length = 0 := by
          simp [hvw]
        rw [hone]
        omega
    cases k with
    | zero =>
      have hv : v = u := by simpa using h
      subst hv
      show (importAll vs (rows ++ [(v, 1 + maxRevision rows v)])).get?
        (rows.length + 0) = _
      apply importAll_get_prefix
      rw [show rows.length + 0 = rows.length from rfl, List.get?_concat_length]
      rw [H v]
      simp
    | succ j =>
      have h' : vs.get? j = some u := by simpa using h
      have hrec := ih (rows ++ [(v, 1 + maxRevision rows v)]) Hstep j u h'
      have hidx : (rows ++ [(v, 1 + maxRevision rows v)]).length + j =
          rows.length + (j + 1) := by
        simp [List.length_append]
        omega
      rw [hidx] at hrec
      have hlist : (rows ++ [(v, 1 + maxRevision rows v)]).map Prod.fst ++ vs.take j =
          rows.map Prod.fst ++ (v :: vs).take (j + 1) := by
        rw [List.map_append, List.take_succ_cons]
        simp
      rw [hlist] at hrec
      exact hrec

/-- C8: every data row inserted by the import loop gets revision one plus the
number of previously inserted rows sharing its updated timestamp — which is
also one plus the running maximum revision among rows with that updated value,
starting at 1 — position for position. -/
theorem claim8 (us : List Int) (k : Nat) (u : Int) (h : us.get? k = some u) :
    (importAll us []).get? k =
      some (u, 1 + ((us.take k).filter (fun x => x == u)).length) := by
  have hmain := importAll_general us [] (fun w => rfl) k u h
  simpa using hmain

theorem claim8_witness :
    ([5, 5, 7] : List Int).get? 1 = some 5 ∧
    (importAll [5, 5, 7] []).get? 1 =
      some (5, 1 + ((([5, 5, 7] : List Int).take 1).filter
        (fun x => x == 5)).length) :=
  ⟨by decide, claim8 [5, 5, 7] 1 5 (by decide)⟩

theorem applyOps_getFilter_other (ops : List MutOp) :
    ∀ st m i, i ≠ m.slot → getFilter (applyOps st m ops) i = getFilter st i := by
  induction ops with
  | nil =>
    intro st m i h
    rfl
  | cons op rest ih =>
    intro st m i h
    show getFilter (applyOps (applyOp st m op) m rest) i = _
    rw [ih (applyOp st m op) m i h]
    unfold getFilter applyOp
    rw [List.getD_eq_getElem?_getD, List.getD_eq_getElem?_getD,
      List.getElem?_set_ne (fun hc => h hc.symm)]

/-- C9: freezing a mutable view into a reference clones the view's filter
into a fresh slot, so any sequence of subsequent mutations of the view
(removes, filters, elides) leaves the frozen reference's filter — and with it
every object visible through its child iterators — unchanged. -/
theorem claim9 (st : Store) (m : MutRef) (st1 : Store) (r : FrozenRef)
    (hfr : freeze st m = (st1, r)) (hslot : m.slot < st.filters.length)
    (ops : List MutOp) :
    getFilter (applyOps st1 m ops) r.slot = getFilter st1 r.slot ∧
    ∀ t u p, visibleChildren (applyOps st1 m ops) r t u p =
      visibleChildren st1 r t u p := by
  have hr : r.slot = st.filters.length := by
    have h2 := congrArg (fun x => x.2.slot) hfr
    exact h2.symm
  have hne : r.slot ≠ m.slot := by omega
  have hmain := applyOps_getFilter_other ops st1 m r.slot hne
  refine ⟨hmain, fun t u p => ?_⟩
  unfold visibleChildren
  rw [hmain]

theorem claim9_witness :
    freeze ⟨[[0, 1, 2]]⟩ ⟨buildIndex demoData, 0⟩ =
      (⟨[[0, 1, 2], [0, 1, 2]]⟩, ⟨buildIndex demoData, 1⟩) ∧
    (0 : Nat) < ([[0, 1, 2]] : List (List Nat)).length ∧
    (getFilter (applyOps ⟨[[0, 1, 2], [0, 1, 2]]⟩ ⟨buildIndex demoData, 0⟩
        [MutOp.removeFacility 1]) 1 =
      getFilter ⟨[[0, 1, 2], [0, 1, 2]]⟩ 1 ∧
    ∀ t u p, visibleChildren (applyOps ⟨[[0, 1, 2], [0, 1, 2]]⟩
          ⟨buildIndex demoData, 0⟩ [MutOp.removeFacility 1])
        ⟨buildIndex demoData, 1⟩ t u p =
      visibleChildren ⟨[[0, 1, 2], [0, 1, 2]]⟩ ⟨buildIndex demoData, 1⟩ t u p) :=
  ⟨rfl, by decide,
    claim9 ⟨[[0, 1, 2]]⟩ ⟨buildIndex demoData, 0⟩ ⟨[[0, 1, 2], [0, 1, 2]]⟩
      ⟨buildIndex demoData, 1⟩ rfl (by decide) [MutOp.removeFacility 1]⟩

/-- C10 (code bug): the index build fills the reservation-guess and
date-range caches before it computes the index update time, so the cached
`ComputeEffectiveDateRange` read path disagrees with the uncached computation
on the same reference whenever the schedule date falls back to the update
time: on the demo snapshot the cache holds the aborted zero result with
ok = false while the direct computation returns the filled range with
ok = true — the agreement that `sanityCheck2` asserts fails. -/
theorem claim10 :
    cedrCached (buildCached demoData) 4 = (none, none, false) ∧
    cedrUncached (buildIndex demoData) (buildCached demoData).updated 4 =
      some (some ⟨2025, 3, 1, 0⟩, some ⟨2025, 5, 31, 86399999999999⟩, true) ∧
    some (cedrCached (buildCached demoData) 4) ≠
      cedrUncached (buildIndex demoData) (buildCached demoData).updated 4 := by
  refine ⟨by decide, by decide, by decide⟩
